import Mathlib

/-!
Verification development for the RWKV-LM-LoRA `RWKV-v4neo` trainer core
(`src/RWKV-v4neo/src/model.py`).

The development has several layers:

* generic list helpers (`lastN`, `mapAccumL`, chunking) with the lemmas the
  segmentation proofs need;
* an attribute-level model of the Python class `BlockStateList` and of the
  entry of `RWKV.compute_loss`, faithful to the constructor arity and the
  attribute names the source actually uses, so that the exception behaviour
  of the training path can be settled exactly;
* a value-level model of the stabilized WKV recurrence together with a naive
  unstabilized reference;
* a value-level model of the Time-Mix / Channel-Mix / Block / Stack forward
  pass over exact rationals, with position-wise nonlinearities (sigmoid,
  exp, layer norm, per-position cross-entropy) kept as explicit function
  parameters of the model, and the segmented BPTT loop built on top of it.

Tensors are modelled as lists of rows of rationals (one batch row; the
per-row computations of the source are independent across batch rows).
-/

namespace RWKV

/-! ## Generic list helpers -/

/-- Last `n` elements of a list (Python slice `l[-n:]` for `0 < n ≤ len`). -/
def lastN (n : Nat) (l : List α) : List α :=
  l.drop (l.length - n)

theorem lastN_length (n : Nat) (l : List α) :
    (lastN n l).length = min n l.length := by
  rw [lastN, List.length_drop]
  rcases Nat.le_total n l.length with h | h
  · rw [Nat.min_eq_left h]; omega
  · rw [Nat.min_eq_right h]; omega

theorem lastN_of_length_le (n : Nat) (l : List α) (h : l.length ≤ n) :
    lastN n l = l := by
  rw [lastN]
  have h0 : l.length - n = 0 := by omega
  rw [h0, List.drop_zero]

/-- Truncating a window twice through an append is the same as truncating the
full concatenation once. -/
theorem lastN_lastN_append (n : Nat) (a b : List α) :
    lastN n (lastN n a ++ b) = lastN n (a ++ b) := by
  unfold lastN
  rw [List.length_append, List.length_append, List.length_drop,
      List.drop_append_eq_append_drop, List.drop_append_eq_append_drop,
      List.drop_drop, List.length_drop]
  have h1 : a.length - n + (a.length - (a.length - n) + b.length - n)
      = a.length + b.length - n := by omega
  have h2 : a.length - (a.length - n) + b.length - n - (a.length - (a.length - n))
      = a.length + b.length - n - a.length := by omega
  rw [h1, h2]

/-- Accumulating map over a list (functional form of a sequential scan). -/
def mapAccumL (f : σ → α → β × σ) : σ → List α → List β × σ
  | s, [] => ([], s)
  | s, a :: rest =>
      let p := f s a
      let q := mapAccumL f p.2 rest
      (p.1 :: q.1, q.2)

theorem mapAccumL_append (f : σ → α → β × σ) (s : σ) (l₁ l₂ : List α) :
    mapAccumL f s (l₁ ++ l₂) =
      ((mapAccumL f s l₁).1 ++ (mapAccumL f (mapAccumL f s l₁).2 l₂).1,
        (mapAccumL f (mapAccumL f s l₁).2 l₂).2) := by
  induction l₁ generalizing s with
  | nil => simp [mapAccumL]
  | cons a rest ih => simp [mapAccumL, ih]

theorem mapAccumL_length (f : σ → α → β × σ) (s : σ) (l : List α) :
    (mapAccumL f s l).1.length = l.length := by
  induction l generalizing s with
  | nil => rfl
  | cons a rest ih => simp [mapAccumL, ih]

/-- Pointwise zip of three lists, truncating to the shortest. -/
def zipWith3 (f : α → β → γ → δ) : List α → List β → List γ → List δ
  | a :: as', b :: bs, c :: cs => f a b c :: zipWith3 f as' bs cs
  | _, _, _ => []

theorem zipWith3_append (f : α → β → γ → δ) (a₁ a₂ : List α) (b₁ b₂ : List β)
    (c₁ c₂ : List γ) (hab : a₁.length = b₁.length) (hac : a₁.length = c₁.length) :
    zipWith3 f (a₁ ++ a₂) (b₁ ++ b₂) (c₁ ++ c₂) =
      zipWith3 f a₁ b₁ c₁ ++ zipWith3 f a₂ b₂ c₂ := by
  induction a₁ generalizing b₁ c₁ with
  | nil =>
      cases b₁ <;> cases c₁ <;> simp_all [zipWith3]
  | cons a rest ih =>
      cases b₁ with
      | nil => simp at hab
      | cons b bs =>
          cases c₁ with
          | nil => simp at hac
          | cons c cs =>
              simp only [List.cons_append, zipWith3, List.append_eq]
              rw [ih bs cs (by simpa using hab) (by simpa using hac)]

/-! ## Attribute-level model of the Python `BlockStateList` class

The Python class `BlockStateList` (source lines 158-204) is modelled at the
level of attribute names and constructor arity, which is exactly the level
at which the training path of `compute_loss` fails at runtime.  Payloads are
irrelevant to that behaviour and are omitted. -/

/-- Python runtime errors relevant to the modelled code paths. -/
inductive PyErr where
  | typeError : PyErr
  | attributeError (attr : String) : PyErr
deriving DecidableEq

/-- Attributes assigned by `BlockStateList.__init__` (source lines 160-164). -/
def blockStateListFields : List String :=
  ["wkv_shift_channel_states", "att_shift_channel_states",
   "ffn_shift_states", "att_channels"]

/-- Attribute lookup on a `BlockStateList` instance succeeds exactly for the
attributes `__init__` assigns. -/
def bslHasAttr (attr : String) : Bool :=
  blockStateListFields.contains attr

/-- Reading `instance.<attr>` either succeeds or raises `AttributeError`. -/
def bslGetAttr (attr : String) : Except PyErr Unit :=
  if bslHasAttr attr then Except.ok () else Except.error (PyErr.attributeError attr)

/-- Calling `BlockStateList(...)` with `nargs` positional arguments:
`__init__` (source line 160) declares exactly 4 parameters besides `self`,
so any other count raises `TypeError`. -/
def bslConstruct (nargs : Nat) : Except PyErr Unit :=
  if nargs = 4 then Except.ok () else Except.error PyErr.typeError

/-- Body of `BlockStateList.empty` (source lines 181-189): after building the
three state tensors it calls the constructor with only 3 positional
arguments. -/
def bslEmpty : Except PyErr Unit :=
  bslConstruct 3

/-- Body of `BlockStateList.create` (source lines 168-177): first calls
`empty`, then reads `result.wkv_states` (an attribute that is never
assigned), then zero-fills the remaining state tensors. -/
def bslCreate : Except PyErr Unit :=
  bslEmpty >>= fun _ =>
  bslGetAttr "wkv_states" >>= fun _ =>
  bslGetAttr "att_shift_channel_states" >>= fun _ =>
  bslGetAttr "ffn_shift_states"

/-! ## Entry of `RWKV.compute_loss` (source lines 882-953)

Only the part up to and including the `BlockStateList.create` call is
modelled at the attribute level; anything after that call is dead code at
runtime, so the model takes the would-be result of the rest of the function
as an opaque parameter `rest`. The `randint` draw of the context-length
curriculum is modelled by explicit oracle parameters. -/

/-- Result of a `compute_loss` call, together with how many Stack forward
passes and backward passes were performed while producing it. -/
structure ComputeLossResult where
  loss : ℚ
  forwardCalls : Nat
  backwardCalls : Nat
deriving DecidableEq

/-- Sum of all entries of a (batch × positions) mask. -/
def totalMaskSum (mask : List (List ℚ)) : ℚ :=
  (mask.map (fun r => r.sum)).sum

/-- Context-length-curriculum transform of the attention mask (source lines
913-916): keep the first `pos + lenCut + 1` positions and zero out the first
`pos` of them. -/
def cutoffMask (pos lenCut : Nat) (mask : List (List ℚ)) : List (List ℚ) :=
  mask.map (fun r =>
    List.replicate (min pos (pos + lenCut + 1)) (0 : ℚ) ++
      ((r.take (pos + lenCut + 1)).drop pos))

/-- Effective attention mask used by `compute_loss`: the given mask, or a
default all-ones mask aligned with the targets (source line 889), then the
optional curriculum cutoff (the `applyCutoff` oracle stands for the
`global_step` window test and the `randint` draw of source lines 901-917). -/
def effectiveMask (seq : List (List Nat)) (mask0 : Option (List (List ℚ)))
    (applyCutoff : Bool) (pos lenCut : Nat) : List (List ℚ) :=
  let mask1 := match mask0 with
    | some m => m
    | none => seq.map (fun r => List.replicate (r.length - 1) (1 : ℚ))
  if applyCutoff then cutoffMask pos lenCut mask1 else mask1

/-- Attribute-level model of `RWKV.compute_loss` (source lines 882-953): if
the effective mask sums to zero the function returns `0` having done no
forward or backward computation (source lines 925-929); otherwise it reaches
`BlockStateList.create` (source line 953) and whatever would come after is
the opaque `rest`. -/
def computeLossPy (rest : ComputeLossResult) (seq : List (List Nat))
    (mask0 : Option (List (List ℚ))) (applyCutoff : Bool) (pos lenCut : Nat) :
    Except PyErr ComputeLossResult :=
  if totalMaskSum (effectiveMask seq mask0 applyCutoff pos lenCut) = 0 then
    Except.ok ⟨0, 0, 0⟩
  else
    bslCreate >>= fun _ => Except.ok rest

theorem list_sum_zero_of_all_zero (l : List ℚ) (h : ∀ x ∈ l, x = 0) :
    l.sum = 0 := by
  induction l with
  | nil => rfl
  | cons a rest ih =>
      rw [List.sum_cons, h a (List.mem_cons_self a rest),
        ih (fun x hx => h x (List.mem_cons_of_mem a hx)), add_zero]

theorem totalMaskSum_eq_zero (m : List (List ℚ))
    (hm : ∀ r ∈ m, ∀ x ∈ r, x = 0) : totalMaskSum m = 0 := by
  refine list_sum_zero_of_all_zero _ (fun x hx => ?_)
  rcases List.mem_map.mp hx with ⟨r, hr, rfl⟩
  exact list_sum_zero_of_all_zero r (hm r hr)

theorem cutoffMask_all_zero (pos lenCut : Nat) (m : List (List ℚ))
    (hm : ∀ r ∈ m, ∀ x ∈ r, x = 0) :
    ∀ r ∈ cutoffMask pos lenCut m, ∀ x ∈ r, x = 0 := by
  intro r hr x hx
  rcases List.mem_map.mp hr with ⟨r₀, hr₀, rfl⟩
  rcases List.mem_append.mp hx with h | h
  · exact List.eq_of_mem_replicate h
  · exact hm r₀ hr₀ x (List.take_subset _ _ (List.drop_subset _ _ h))

/-- C2 (amended form): on any batch whose effective attention mask has a
nonzero sum, `compute_loss` raises an exception before returning any loss:
`BlockStateList.empty` calls the 4-parameter constructor with 3 arguments
(`TypeError`), `BlockStateList.create` reads the undefined attribute
`wkv_states`, and the segment loop reads `att_shift_states` and
`wkv_states`, which are not attributes of `BlockStateList` either
(`ffn_shift_states`, by contrast, is a defined attribute). -/
theorem C2_compute_loss_raises (rest : ComputeLossResult) (seq : List (List Nat))
    (mask0 : Option (List (List ℚ))) (ac : Bool) (pos lenCut : Nat)
    (h : totalMaskSum (effectiveMask seq mask0 ac pos lenCut) ≠ 0) :
    computeLossPy rest seq mask0 ac pos lenCut = Except.error PyErr.typeError ∧
    bslEmpty = Except.error PyErr.typeError ∧
    bslGetAttr "wkv_states" = Except.error (PyErr.attributeError "wkv_states") ∧
    bslHasAttr "att_shift_states" = false ∧
    bslHasAttr "wkv_states" = false := by
  refine ⟨?_, rfl, rfl, rfl, rfl⟩
  rw [computeLossPy, if_neg h]
  rfl

theorem C2_compute_loss_raises_witness :
    totalMaskSum (effectiveMask [[0, 1]] (some [[1]]) false 0 0) ≠ 0 ∧
    computeLossPy ⟨0, 0, 0⟩ [[0, 1]] (some [[1]]) false 0 0 =
      Except.error PyErr.typeError :=
  ⟨by norm_num [totalMaskSum, effectiveMask],
    (C2_compute_loss_raises ⟨0, 0, 0⟩ [[0, 1]] (some [[1]]) false 0 0
      (by norm_num [totalMaskSum, effectiveMask])).1⟩

/-- C2 counterexample to the claim as stated: the claim lists
`states.ffn_shift_states` among the reads that are "likewise not attributes
of BlockStateList", but `ffn_shift_states` is one of the four attributes
`__init__` defines, so that read succeeds. -/
theorem C2_counterexample :
    bslHasAttr "ffn_shift_states" = true ∧
    bslGetAttr "ffn_shift_states" = Except.ok () := by
  exact ⟨rfl, rfl⟩

/-- C6: a batch whose attention mask is all zeros short-circuits:
`compute_loss` returns exactly zero loss having performed no forward and no
backward computation (and in particular no state is created or updated). -/
theorem C6_zero_mask_short_circuit (rest : ComputeLossResult)
    (seq : List (List Nat)) (m : List (List ℚ)) (ac : Bool) (pos lenCut : Nat)
    (hm : ∀ r ∈ m, ∀ x ∈ r, x = 0) :
    computeLossPy rest seq (some m) ac pos lenCut =
      Except.ok ⟨0, 0, 0⟩ := by
  have hz : totalMaskSum (effectiveMask seq (some m) ac pos lenCut) = 0 := by
    rw [effectiveMask]
    cases ac with
    | false => exact totalMaskSum_eq_zero m hm
    | true => exact totalMaskSum_eq_zero _ (cutoffMask_all_zero pos lenCut m hm)
  rw [computeLossPy, if_pos hz]

theorem C6_zero_mask_short_circuit_witness :
    (∀ r ∈ [[(0 : ℚ), 0], [0, 0]], ∀ x ∈ r, x = 0) ∧
    computeLossPy ⟨7, 3, 3⟩ [[0, 1, 2], [3, 4, 5]] (some [[0, 0], [0, 0]]) true 1 0 =
      Except.ok ⟨0, 0, 0⟩ :=
  ⟨by simp,
    C6_zero_mask_short_circuit ⟨7, 3, 3⟩ [[0, 1, 2], [3, 4, 5]] [[0, 0], [0, 0]]
      true 1 0 (by simp)⟩

/-! ## Loss Regularizer (`L2Wrap`, source lines 415-442)

Logits are a positions × vocab matrix (one batch row), the mask one entry
per position. -/

/-- Value and index of the first maximal entry of a row (`torch.max` along
the last dimension). -/
def maxWithIdx : List ℚ → ℚ × Nat
  | [] => (0, 0)
  | [x] => (x, 0)
  | x :: y :: rest =>
      let r := maxWithIdx (y :: rest)
      if r.1 > x then (r.1, r.2 + 1) else (x, 0)

/-- Zeros-like row with `v` scattered at index `i`
(`gy = torch.zeros_like(y); gy.scatter_(-1, ids, maxx * factor)`). -/
def scatterRow (row : List ℚ) (i : Nat) (v : ℚ) : List ℚ :=
  (row.map (fun _ => (0 : ℚ))).set i v

/-- Forward of `L2Wrap` (source lines 418-430): identity on the loss while
saving the logits, token amount and mask for the backward path. -/
def l2wrapForward (loss : ℚ) (_y : List (List ℚ)) (_tokenAmount : ℚ)
    (_mask : List ℚ) : ℚ :=
  loss

/-- Backward of `L2Wrap` (source lines 432-442): pass the incoming loss
gradient through, and emit for the logits a scatter of
`maxx * (1e-4 / token_amount)` at each position's arg-max coordinate,
scaled by the position's mask entry. -/
def l2wrapBackward (gradOutput : ℚ) (y : List (List ℚ)) (tokenAmount : ℚ)
    (mask : List ℚ) : ℚ × List (List ℚ) :=
  (gradOutput,
    List.zipWith (fun row mj => row.map (fun q => q * mj))
      (y.map (fun row =>
        scatterRow row (maxWithIdx row).2
          ((maxWithIdx row).1 * ((1 / 10000 : ℚ) / tokenAmount)))) mask)

theorem maxWithIdx_is_ub (l : List ℚ) : ∀ x ∈ l, x ≤ (maxWithIdx l).1 := by
  induction l with
  | nil => intro x hx; cases hx
  | cons a rest ih =>
      intro x hx
      cases rest with
      | nil =>
          rcases List.mem_cons.mp hx with rfl | h
          · exact le_refl _
          · cases h
      | cons b rest' =>
          rw [maxWithIdx]
          rcases List.mem_cons.mp hx with rfl | h
          · by_cases hgt : (maxWithIdx (b :: rest')).1 > x
            · simp only [if_pos hgt]; exact le_of_lt hgt
            · simp only [if_neg hgt]; exact le_refl x
          · by_cases hgt : (maxWithIdx (b :: rest')).1 > a
            · simp only [if_pos hgt]; exact ih x h
            · simp only [if_neg hgt]
              exact le_trans (ih x h) (le_of_not_lt hgt)

theorem maxWithIdx_mem (l : List ℚ) (h : l ≠ []) : (maxWithIdx l).1 ∈ l := by
  induction l with
  | nil => exact absurd rfl h
  | cons a rest ih =>
      cases rest with
      | nil => simp [maxWithIdx]
      | cons b rest' =>
          rw [maxWithIdx]
          by_cases hgt : (maxWithIdx (b :: rest')).1 > a
          · simp only [if_pos hgt]
            exact List.mem_cons_of_mem a (ih (by simp))
          · simp only [if_neg hgt]
            exact List.mem_cons_self a _

theorem scatterRow_entry (row : List ℚ) (i : Nat) (v : ℚ) (j : Nat)
    (hj : j < row.length) :
    (scatterRow row i v).getD j 0 = if j = i then v else 0 := by
  simp only [scatterRow]
  have hj' : j < ((row.map (fun _ => (0 : ℚ))).set i v).length := by simpa using hj
  rw [List.getD_eq_getElem _ _ hj']
  by_cases hji : j = i
  · subst hji
    rw [if_pos rfl, List.getElem_set_self (by simpa using hj)]
  · rw [if_neg hji, List.getElem_set_ne]
    · simp
    · omega

theorem zipWith_rowscale_getD (gy : List (List ℚ)) (mask : List ℚ) (j : Nat)
    (hjy : j < gy.length) (hjm : j < mask.length) (i : Nat) :
    ((List.zipWith (fun row mj => row.map (fun q => q * mj)) gy mask).getD j
        []).getD i 0 =
      (gy.getD j []).getD i 0 * mask.getD j 0 := by
  induction gy generalizing mask j with
  | nil => cases hjy
  | cons r rs ih =>
      cases mask with
      | nil => cases hjm
      | cons m ms =>
          cases j with
          | zero =>
              simp only [List.zipWith_cons_cons, List.getD_cons_zero]
              by_cases hi : i < r.length
              · rw [List.getD_eq_getElem _ _ (by simpa using hi),
                  List.getElem_map, List.getD_eq_getElem _ _ hi]
              · rw [List.getD_eq_default _ _ (by simpa using le_of_not_lt hi),
                  List.getD_eq_default _ _ (le_of_not_lt (by simpa using hi)),
                  zero_mul]
          | succ j' =>
              simp only [List.zipWith_cons_cons, List.getD_cons_succ]
              exact ih ms j' (by simpa using hjy) (by simpa using hjm)

/-- C7: the Loss Regularizer's forward is the identity on the loss; its
backward passes the incoming loss gradient through unchanged and produces,
for the logits, a gradient that is zero at every coordinate except each
position's arg-max coordinate, where it equals the position's maximum logit
times `1e-4 / token_amount`, times the position's mask entry (so masked-out
positions contribute zero gradient). -/
theorem C7_loss_regularizer (loss g tokenAmount : ℚ) (y : List (List ℚ))
    (mask : List ℚ) :
    l2wrapForward loss y tokenAmount mask = loss ∧
    (l2wrapBackward g y tokenAmount mask).1 = g ∧
    (∀ j, j < min y.length mask.length → ∀ i, i < (y.getD j []).length →
      ((l2wrapBackward g y tokenAmount mask).2.getD j []).getD i 0 =
        if i = (maxWithIdx (y.getD j [])).2 then
          (maxWithIdx (y.getD j [])).1 * ((1 / 10000) / tokenAmount) *
            mask.getD j 0
        else 0) ∧
    (∀ row ∈ y, ∀ x ∈ row, x ≤ (maxWithIdx row).1) ∧
    (∀ row ∈ y, row ≠ [] → (maxWithIdx row).1 ∈ row) := by
  refine ⟨rfl, rfl, ?_, fun row _ => maxWithIdx_is_ub row,
    fun row _ => maxWithIdx_mem row⟩
  intro j hj i hi
  have hjy : j < y.length := lt_of_lt_of_le hj (Nat.min_le_left _ _)
  have hjm : j < mask.length := lt_of_lt_of_le hj (Nat.min_le_right _ _)
  have h2 : (l2wrapBackward g y tokenAmount mask).2 =
      List.zipWith (fun row mj => row.map (fun q => q * mj))
        (y.map (fun row =>
          scatterRow row (maxWithIdx row).2
            ((maxWithIdx row).1 * ((1 / 10000 : ℚ) / tokenAmount)))) mask := rfl
  rw [h2, zipWith_rowscale_getD _ mask j (by simpa using hjy) hjm i]
  have h3 : (y.map (fun row =>
      scatterRow row (maxWithIdx row).2
        ((maxWithIdx row).1 * ((1 / 10000 : ℚ) / tokenAmount)))).getD j [] =
      scatterRow (y.getD j []) (maxWithIdx (y.getD j [])).2
        ((maxWithIdx (y.getD j [])).1 * ((1 / 10000 : ℚ) / tokenAmount)) := by
    rw [List.getD_eq_getElem _ _ (by simpa using hjy), List.getElem_map,
      ← List.getD_eq_getElem y [] hjy]
  rw [h3, scatterRow_entry _ _ _ i hi]
  by_cases hcase : i = (maxWithIdx (y.getD j [])).2
  · rw [if_pos hcase, if_pos hcase]
  · rw [if_neg hcase, if_neg hcase, zero_mul]

theorem C7_loss_regularizer_witness :
    (0 : Nat) < min [[(3 : ℚ), 7, 5]].length [(2 : ℚ)].length ∧
    ((l2wrapBackward 1 [[(3 : ℚ), 7, 5]] 4 [2]).2.getD 0 []).getD 1 0 =
      if 1 = (maxWithIdx ([[(3 : ℚ), 7, 5]].getD 0 [])).2 then
        (maxWithIdx ([[(3 : ℚ), 7, 5]].getD 0 [])).1 * ((1 / 10000) / 4) *
          ([(2 : ℚ)].getD 0 0)
      else 0 :=
  ⟨by simp,
    (C7_loss_regularizer 0 1 4 [[(3 : ℚ), 7, 5]] [2]).2.2.1 0 (by simp) 1 (by simp)⟩

/-! ## Recurrence Cell (WKV op)

The Python source only declares the binding `wkv_op` (source lines 129-131)
to the CUDA kernel `wkv_cuda_bf16.cu`, which is not part of the provided
sources; the recurrence itself is therefore modelled from the spec (§4.1):
per channel, maintain a numerator accumulator `aa`, a denominator
accumulator `bb` and a running maximum exponent `pp`; at each step emit a
weighted combination of the current value (with first-touch bias `u`) and
the accumulated history, all exponential weights shifted by the running
maximum, then decay the accumulators by `w` and fold in the current
key/value. The exponential is an explicit function parameter `e`. The
state layout `(aa, bb, pp)` matches the `(N, B, C, 3)` state tensor whose
last slot is initialized to `-1e38` by `BlockStateList.create` (source
lines 170-171). -/

structure WKVState where
  aa : ℚ
  bb : ℚ
  pp : ℚ
deriving DecidableEq

/-- Modelled from the spec (§4.1): one time step of the numerically
stabilized WKV recurrence with decay `w`, first-touch bias `u`, inputs
`k`, `v`; emits the output and the updated `(aa, bb, pp)` state. Every
argument of `e` is max-subtracted. -/
def wkvStep (e : ℚ → ℚ) (w u k v : ℚ) (st : WKVState) : ℚ × WKVState :=
  ((e (st.pp - max st.pp (u + k)) * st.aa + e (u + k - max st.pp (u + k)) * v) /
      (e (st.pp - max st.pp (u + k)) * st.bb + e (u + k - max st.pp (u + k))),
    ⟨e (w + st.pp - max (w + st.pp) k) * st.aa + e (k - max (w + st.pp) k) * v,
      e (w + st.pp - max (w + st.pp) k) * st.bb + e (k - max (w + st.pp) k),
      max (w + st.pp) k⟩)

/-- Modelled from the spec (§4.1, §8 "Recurrence stability"): one time step
of the naive unstabilized reference recurrence, carrying the raw numerator
and denominator accumulators. -/
def wkvNaiveStep (e : ℚ → ℚ) (w u k v : ℚ) (st : ℚ × ℚ) : ℚ × (ℚ × ℚ) :=
  ((st.1 + e (u + k) * v) / (st.2 + e (u + k)),
    (e w * st.1 + e k * v, e w * st.2 + e k))

/-- Stabilized WKV scan over a chunk of (key, value) pairs. -/
def wkvScan (e : ℚ → ℚ) (w u : ℚ) (kvs : List (ℚ × ℚ)) (st : WKVState) :
    List ℚ × WKVState :=
  mapAccumL (fun s kv => wkvStep e w u kv.1 kv.2 s) st kvs

/-- Naive unstabilized reference scan. -/
def wkvNaiveScan (e : ℚ → ℚ) (w u : ℚ) (kvs : List (ℚ × ℚ)) (st : ℚ × ℚ) :
    List ℚ × (ℚ × ℚ) :=
  mapAccumL (fun s kv => wkvNaiveStep e w u kv.1 kv.2 s) st kvs

/-- Initial per-channel recurrence state written by `BlockStateList.create`
(source lines 170-171): zero accumulators, running maximum `-1e38`. -/
def wkvInitState : WKVState :=
  ⟨0, 0, -(10 ^ 38)⟩

theorem exp_hom_split (e : ℚ → ℚ) (he : ∀ a b, e (a + b) = e a * e b)
    (q x : ℚ) : e x = e q * e (x - q) := by
  rw [← he q (x - q)]
  congr 1
  ring

/-- One stabilized step tracks one naive step exactly, through the
correspondence `A = e pp * aa`, `B = e pp * bb`. -/
theorem wkvStep_matches_naive (e : ℚ → ℚ)
    (he : ∀ a b, e (a + b) = e a * e b) (hp : ∀ x, 0 < e x)
    (w u k v : ℚ) (st : WKVState) (A B : ℚ)
    (hA : A = e st.pp * st.aa) (hB : B = e st.pp * st.bb) :
    (wkvNaiveStep e w u k v (A, B)).1 = (wkvStep e w u k v st).1 ∧
    (wkvNaiveStep e w u k v (A, B)).2.1 =
      e (wkvStep e w u k v st).2.pp * (wkvStep e w u k v st).2.aa ∧
    (wkvNaiveStep e w u k v (A, B)).2.2 =
      e (wkvStep e w u k v st).2.pp * (wkvStep e w u k v st).2.bb := by
  have h1 : e st.pp =
      e (max st.pp (u + k)) * e (st.pp - max st.pp (u + k)) :=
    exp_hom_split e he _ _
  have h2 : e (u + k) =
      e (max st.pp (u + k)) * e (u + k - max st.pp (u + k)) :=
    exp_hom_split e he _ _
  have h3 : e (w + st.pp) =
      e (max (w + st.pp) k) * e (w + st.pp - max (w + st.pp) k) :=
    exp_hom_split e he _ _
  have h4 : e k = e (max (w + st.pp) k) * e (k - max (w + st.pp) k) :=
    exp_hom_split e he _ _
  have h5 : e w * e st.pp = e (w + st.pp) := (he w st.pp).symm
  refine ⟨?_, ?_, ?_⟩
  · show (A + e (u + k) * v) / (B + e (u + k)) = _
    rw [hA, hB, h1, h2]
    rw [show e (max st.pp (u + k)) * e (st.pp - max st.pp (u + k)) * st.aa +
          e (max st.pp (u + k)) * e (u + k - max st.pp (u + k)) * v =
        e (max st.pp (u + k)) *
          (e (st.pp - max st.pp (u + k)) * st.aa +
            e (u + k - max st.pp (u + k)) * v) from by ring]
    rw [show e (max st.pp (u + k)) * e (st.pp - max st.pp (u + k)) * st.bb +
          e (max st.pp (u + k)) * e (u + k - max st.pp (u + k)) =
        e (max st.pp (u + k)) *
          (e (st.pp - max st.pp (u + k)) * st.bb +
            e (u + k - max st.pp (u + k))) from by ring]
    exact mul_div_mul_left _ _ (ne_of_gt (hp _))
  · show e w * A + e k * v = _
    rw [hA]
    calc e w * (e st.pp * st.aa) + e k * v
        = e w * e st.pp * st.aa + e k * v := by ring
      _ = e (w + st.pp) * st.aa + e k * v := by rw [h5]
      _ = (e (max (w + st.pp) k) * e (w + st.pp - max (w + st.pp) k)) * st.aa +
            (e (max (w + st.pp) k) * e (k - max (w + st.pp) k)) * v := by
          rw [← h3, ← h4]
      _ = e (max (w + st.pp) k) *
            (e (w + st.pp - max (w + st.pp) k) * st.aa +
              e (k - max (w + st.pp) k) * v) := by ring
  · show e w * B + e k = _
    rw [hB]
    calc e w * (e st.pp * st.bb) + e k
        = e w * e st.pp * st.bb + e k := by ring
      _ = e (w + st.pp) * st.bb + e k := by rw [h5]
      _ = (e (max (w + st.pp) k) * e (w + st.pp - max (w + st.pp) k)) * st.bb +
            (e (max (w + st.pp) k) * e (k - max (w + st.pp) k)) := by
          rw [← h3, ← h4]
      _ = e (max (w + st.pp) k) *
            (e (w + st.pp - max (w + st.pp) k) * st.bb +
              e (k - max (w + st.pp) k)) := by ring

/-- The stabilized scan matches the naive reference scan output-for-output,
with the final states in correspondence. -/
theorem wkvScan_matches_naive (e : ℚ → ℚ)
    (he : ∀ a b, e (a + b) = e a * e b) (hp : ∀ x, 0 < e x)
    (w u : ℚ) (kvs : List (ℚ × ℚ)) (st : WKVState) (A B : ℚ)
    (hA : A = e st.pp * st.aa) (hB : B = e st.pp * st.bb) :
    (wkvNaiveScan e w u kvs (A, B)).1 = (wkvScan e w u kvs st).1 ∧
    (wkvNaiveScan e w u kvs (A, B)).2.1 =
      e (wkvScan e w u kvs st).2.pp * (wkvScan e w u kvs st).2.aa ∧
    (wkvNaiveScan e w u kvs (A, B)).2.2 =
      e (wkvScan e w u kvs st).2.pp * (wkvScan e w u kvs st).2.bb := by
  induction kvs generalizing st A B with
  | nil => exact ⟨rfl, hA, hB⟩
  | cons kv rest ih =>
      obtain ⟨hy, hA', hB'⟩ :=
        wkvStep_matches_naive e he hp w u kv.1 kv.2 st A B hA hB
      obtain ⟨hys, hA'', hB''⟩ :=
        ih (wkvStep e w u kv.1 kv.2 st).2
          (wkvNaiveStep e w u kv.1 kv.2 (A, B)).2.1
          (wkvNaiveStep e w u kv.1 kv.2 (A, B)).2.2 hA' hB'
      refine ⟨?_, ?_, ?_⟩
      · show (wkvNaiveStep e w u kv.1 kv.2 (A, B)).1 ::
            (wkvNaiveScan e w u rest (wkvNaiveStep e w u kv.1 kv.2 (A, B)).2).1 = _
        rw [hy]
        show _ = (wkvStep e w u kv.1 kv.2 st).1 ::
            (wkvScan e w u rest (wkvStep e w u kv.1 kv.2 st).2).1
        congr 1
      · exact hA''
      · exact hB''

/-- C9: starting from the `create`-initialized state, the stabilized WKV
scan produces exactly the outputs of the naive unstabilized reference scan
and a final state in exact correspondence with the naive accumulators;
every exponent the stabilized recurrence evaluates is max-subtracted to a
nonpositive value (the overflow-prevention mechanism), and with nonnegative
denominator accumulator the per-step denominators are strictly positive, so
no division can blow up. -/
theorem C9_recurrence_stability (e : ℚ → ℚ)
    (he : ∀ a b, e (a + b) = e a * e b) (hp : ∀ x, 0 < e x)
    (w u : ℚ) (kvs : List (ℚ × ℚ)) :
    (wkvScan e w u kvs wkvInitState).1 = (wkvNaiveScan e w u kvs (0, 0)).1 ∧
    e (wkvScan e w u kvs wkvInitState).2.pp *
        (wkvScan e w u kvs wkvInitState).2.aa =
      (wkvNaiveScan e w u kvs (0, 0)).2.1 ∧
    e (wkvScan e w u kvs wkvInitState).2.pp *
        (wkvScan e w u kvs wkvInitState).2.bb =
      (wkvNaiveScan e w u kvs (0, 0)).2.2 ∧
    (∀ st : WKVState, ∀ k : ℚ,
      st.pp - max st.pp (u + k) ≤ 0 ∧ u + k - max st.pp (u + k) ≤ 0 ∧
      w + st.pp - max (w + st.pp) k ≤ 0 ∧ k - max (w + st.pp) k ≤ 0) ∧
    (∀ st : WKVState, ∀ k v : ℚ, 0 ≤ st.bb →
      0 < e (st.pp - max st.pp (u + k)) * st.bb +
          e (u + k - max st.pp (u + k)) ∧
      0 < (wkvStep e w u k v st).2.bb) := by
  obtain ⟨h1, h2, h3⟩ :=
    wkvScan_matches_naive e he hp w u kvs wkvInitState 0 0
      (by rw [show wkvInitState.aa = 0 from rfl, mul_zero])
      (by rw [show wkvInitState.bb = 0 from rfl, mul_zero])
  refine ⟨h1.symm, h2.symm, h3.symm, ?_, ?_⟩
  · intro st k
    exact ⟨sub_nonpos.mpr (le_max_left _ _), sub_nonpos.mpr (le_max_right _ _),
      sub_nonpos.mpr (le_max_left _ _), sub_nonpos.mpr (le_max_right _ _)⟩
  · intro st k v hbb
    constructor
    · exact add_pos_of_nonneg_of_pos (mul_nonneg (le_of_lt (hp _)) hbb) (hp _)
    · show 0 < e (w + st.pp - max (w + st.pp) k) * st.bb +
          e (k - max (w + st.pp) k)
      exact add_pos_of_nonneg_of_pos (mul_nonneg (le_of_lt (hp _)) hbb) (hp _)

theorem C9_recurrence_stability_witness :
    (∀ a b : ℚ, (fun _ : ℚ => (1 : ℚ)) (a + b) =
      (fun _ : ℚ => (1 : ℚ)) a * (fun _ : ℚ => (1 : ℚ)) b) ∧
    (wkvScan (fun _ => 1) 0 0 [(1, 2), (3, 4)] wkvInitState).1 =
      (wkvNaiveScan (fun _ => 1) 0 0 [(1, 2), (3, 4)] (0, 0)).1 :=
  ⟨fun _ _ => by norm_num,
    (C9_recurrence_stability (fun _ => 1) (fun _ _ => by norm_num)
      (fun _ => by norm_num) 0 0 [(1, 2), (3, 4)]).1⟩

/-! ## Aliasing of per-channel state slots (`BlockStateList.empty`)

The list-repeat `[torch.empty(...)] * att_channels` (source lines 182-187)
produces `att_channels` references to one tensor object.  Tensor identity
is modelled by storage ids, tensor contents by a heap from ids to payloads. -/

/-- Storage id of the single wkv state tensor `empty` allocates. -/
def wkvTemplateId : Nat := 0

/-- Storage id of the single att shift state tensor `empty` allocates. -/
def attTemplateId : Nat := 1

/-- Per-channel storage ids of `wkv_shift_channel_states` as built by
`[torch.empty((N, B, C, 3), ...)] * att_channels` (source lines 182-184):
list-repeat in Python repeats the reference, not the allocation. -/
def emptyWkvChannelIds (attChannels : Nat) : List Nat :=
  List.replicate attChannels wkvTemplateId

/-- Per-channel storage ids of `att_shift_channel_states` as built by
`[torch.empty((N, B, 2**12, C), ...)] * att_channels` (source line 187). -/
def emptyAttShiftChannelIds (attChannels : Nat) : List Nat :=
  List.replicate attChannels attTemplateId

/-- Write the tensor reached through channel `c` of the id list `ids`. -/
def writeChannel (ids : List Nat) (c : Nat) (v : τ) (h : Nat → τ) : Nat → τ :=
  fun i => if i = ids.getD c 0 then v else h i

/-- Read the tensor reached through channel `c` of the id list `ids`. -/
def readChannel (ids : List Nat) (c : Nat) (h : Nat → τ) : τ :=
  h (ids.getD c 0)

theorem emptyWkvChannelIds_getD (n c : Nat) (hc : c < n) :
    (emptyWkvChannelIds n).getD c 0 = wkvTemplateId := by
  rw [emptyWkvChannelIds,
    List.getD_eq_getElem _ _ (by simpa using hc), List.getElem_replicate]

theorem emptyAttShiftChannelIds_getD (n c : Nat) (hc : c < n) :
    (emptyAttShiftChannelIds n).getD c 0 = attTemplateId := by
  rw [emptyAttShiftChannelIds,
    List.getD_eq_getElem _ _ (by simpa using hc), List.getElem_replicate]

/-- C10 (amended): every pair of attention channels of the
`empty`-initialized `BlockStateList` shares backing storage, for the
recurrence states and for the shift states alike, and a write through one
channel is observed when reading through any other channel. -/
theorem C10_channel_state_aliasing (τ : Type) (n i j : Nat)
    (hi : i < n) (hj : j < n) (v : τ) (h : Nat → τ) :
    (emptyWkvChannelIds n).getD i 0 = (emptyWkvChannelIds n).getD j 0 ∧
    (emptyAttShiftChannelIds n).getD i 0 =
      (emptyAttShiftChannelIds n).getD j 0 ∧
    readChannel (emptyWkvChannelIds n) j
      (writeChannel (emptyWkvChannelIds n) i v h) = v := by
  refine ⟨?_, ?_, ?_⟩
  · rw [emptyWkvChannelIds_getD n i hi, emptyWkvChannelIds_getD n j hj]
  · rw [emptyAttShiftChannelIds_getD n i hi, emptyAttShiftChannelIds_getD n j hj]
  · rw [readChannel, writeChannel, emptyWkvChannelIds_getD n i hi,
      emptyWkvChannelIds_getD n j hj, if_pos rfl]

theorem C10_channel_state_aliasing_witness :
    (0 : Nat) < 2 ∧ (1 : Nat) < 2 ∧
    readChannel (emptyWkvChannelIds 2) 1
      (writeChannel (emptyWkvChannelIds 2) 0 (5 : ℚ) (fun _ => 0)) = 5 :=
  ⟨by norm_num, by norm_num,
    (C10_channel_state_aliasing ℚ 2 0 1 (by norm_num) (by norm_num) 5
      (fun _ => 0)).2.2⟩

/-- C10 counterexample to the claim as stated: with two attention channels,
channels 0 and 1 are distinct, yet their recurrence state tensors share one
backing storage id, and writing channel 0's state changes the value read
through channel 1 (from the initial 0 to the written 5). -/
theorem C10_counterexample :
    (0 : Nat) ≠ 1 ∧
    (emptyWkvChannelIds 2).getD 0 0 = (emptyWkvChannelIds 2).getD 1 0 ∧
    readChannel (emptyWkvChannelIds 2) 1 (fun _ => (0 : ℚ)) = 0 ∧
    readChannel (emptyWkvChannelIds 2) 1
      (writeChannel (emptyWkvChannelIds 2) 0 (5 : ℚ) (fun _ => 0)) = 5 := by
  refine ⟨by norm_num, rfl, rfl, ?_⟩
  rw [readChannel, writeChannel]
  norm_num [emptyWkvChannelIds, wkvTemplateId]

/-! ## Time-Mix shift-state window -/

/-- Window capacity used when a Time-Mix state is stored back into the
`BlockStateList` (`__setitem__`, source line 202, matching `empty`, line
187): hard-coded to `2 ** 12` for every layer — the adjacent "HOT FIX"
comment records that `12` was meant to be the layer count. -/
def windowCap (_layerId : Nat) : Nat := 2 ^ 12

/-- Stored shift-state window of a Time-Mix unit after processing chunk
`x`: the unit emits `concat(last_state.shift_state, x)` as its new shift
state (source lines 267, 299, 304) and `__setitem__` keeps its trailing
`2 ** 12` rows (source line 202). -/
def shiftStateUpdate (layerId : Nat) (window x : List α) : List α :=
  lastN (windowCap layerId) (window ++ x)

theorem lastN_getD (n : Nat) (l : List α) (d : α) (i : Nat)
    (hi : i < (lastN n l).length) :
    (lastN n l).getD i d = l.getD (l.length - n + i) d := by
  have hi' : i < l.length - (l.length - n) := by
    rw [lastN, List.length_drop] at hi
    exact hi
  rw [lastN, List.getD_eq_getElem _ _ (by rw [List.length_drop]; exact hi'),
    List.getElem_drop, List.getD_eq_getElem _ _ (by omega)]

/-- C8 (amended): after the Time-Mix unit of any block processes a chunk of
length `L` on top of a previous window of length `W`, the stored shift
state contains exactly the last `min (L + W) capacity` rows of the emitted
shifted-input concatenation, in order — but the window capacity is the same
hard-coded `2 ** 12` for every block position (the "HOT FIX"), not a
position-specific power of two. -/
theorem C8_shift_window (layerId : Nat) (window x : List (List ℚ)) :
    (shiftStateUpdate layerId window x).length =
      min (x.length + window.length) (windowCap layerId) ∧
    (∀ i, i < (shiftStateUpdate layerId window x).length →
      (shiftStateUpdate layerId window x).getD i [] =
        (window ++ x).getD
          (window.length + x.length - (shiftStateUpdate layerId window x).length + i)
          []) ∧
    windowCap layerId = 2 ^ 12 := by
  refine ⟨?_, ?_, rfl⟩
  · rw [shiftStateUpdate, lastN_length, List.length_append]
    rcases Nat.le_total (windowCap layerId) (window.length + x.length) with h | h
    · rw [Nat.min_eq_left h, Nat.min_eq_right (by omega)]
    · rw [Nat.min_eq_right h, Nat.min_eq_left (by omega)]
      omega
  · intro i hi
    rw [shiftStateUpdate] at hi ⊢
    have hidx : (window ++ x).length - windowCap layerId + i =
        window.length + x.length -
          (lastN (windowCap layerId) (window ++ x)).length + i := by
      rw [lastN_length, List.length_append]
      rcases Nat.le_total (windowCap layerId) (window.length + x.length) with h | h
      · rw [Nat.min_eq_left h]
      · rw [Nat.min_eq_right h]
        omega
    rw [lastN_getD _ _ _ _ hi, hidx]

theorem C8_shift_window_witness :
    (shiftStateUpdate 0 [[(1 : ℚ)]] [[2], [3]]).length =
      min ([[(2 : ℚ)], [3]].length + [[(1 : ℚ)]].length) (windowCap 0) :=
  (C8_shift_window 0 [[(1 : ℚ)]] [[2], [3]]).1

/-- C8 counterexample to the claim as stated: the window capacity is not
specific to a block's position in the stack — blocks 0 and 1 are distinct
positions yet have the same hard-coded capacity `2 ** 12`. -/
theorem C8_counterexample :
    windowCap 0 = windowCap 1 ∧ (0 : Nat) ≠ 1 :=
  ⟨rfl, by norm_num⟩

/-! ## Value-level model of the Stack forward pass

One batch row; tensors are lists of rows of rationals.  The per-position
scalar nonlinearities that are not rational-valued (the WKV exponential and
`torch.sigmoid`) and the per-row functions (the layer norms, the
per-position cross-entropy) are explicit parameters of the model: the
segmentation and threading properties proved below hold for every choice
of them.  The state threading follows `compute_loss` with the
`BlockStateList` attribute accesses repaired to the names `__init__`
defines (the slips themselves are settled separately at the attribute
level). -/

/-- One hidden row (a position, `n_embd` channels). -/
abbrev Row := List ℚ

/-- A chunk: rows of consecutive positions of one batch row. -/
abbrev Chunk := List Row

/-- Dot product. -/
def dot (a b : Row) : ℚ :=
  (List.zipWith (fun p q => p * q) a b).sum

/-- Bias-free linear map given by its weight rows (`nn.Linear(..., bias=False)`). -/
def matvec (w : List Row) (x : Row) : Row :=
  w.map (fun wr => dot wr x)

/-- Learned blending `x * m + xx * (1 - m)` of the current and shifted rows
(`time_mix_k` and friends, source lines 281-283, 354-355). -/
def mixRow (m x xx : Row) : Row :=
  zipWith3 (fun mi xi xxi => xi * mi + xxi * (1 - mi)) m x xx

/-- Pointwise product of two rows. -/
def hadamard (a b : Row) : Row :=
  List.zipWith (fun p q => p * q) a b

/-- Row addition (residual connections). -/
def addRow (a b : Row) : Row :=
  List.zipWith (fun p q => p + q) a b

/-- Chunk addition. -/
def addChunk (a b : Chunk) : Chunk :=
  List.zipWith addRow a b

/-- The model's position-wise primitive functions that are kept abstract. -/
structure ModelFns where
  e : ℚ → ℚ
  sigm : ℚ → ℚ

/-- Learned parameters of one Time-Mix unit (source lines 212-254). -/
structure TimeMixParams where
  timeMixK : Row
  timeMixV : Row
  timeMixR : Row
  wK : List Row
  wV : List Row
  wR : List Row
  wOut : List Row
  timeDecay : Row
  timeFirst : Row
  shift : Nat

/-- State of one Time-Mix unit: shift window plus per-channel-dimension WKV
recurrence states. -/
structure TimeMixState where
  window : Chunk
  wkv : List WKVState

/-- `nn.ZeroPad2d((0, 0, s, -s))` (source line 254): prepend `s` zero rows,
drop the last `s` rows. -/
def zeroPadShift (s : Nat) (z : Row) (l : Chunk) : Chunk :=
  List.replicate s z ++ l.take (l.length - s)

/-- The shifted view `xx` of `_forward_kvsr` (source lines 267-270):
`xxx = concat(shift_state, x)`, `xxxx = time_shift(xxx)`,
`xx = xxxx[:, -len(x):, :]`. -/
def timeShiftView (s : Nat) (z : Row) (window x : Chunk) : Chunk :=
  lastN x.length (zeroPadShift s z (window ++ x))

/-- Apply the WKV recurrence independently on each channel dimension of one
time step. -/
def wkvRowStep (e : ℚ → ℚ) :
    Row → Row → Row → Row → List WKVState → Row × List WKVState
  | w :: ws, u :: us, k :: ks, v :: vs, s :: ss =>
      let p := wkvStep e w u k v s
      let q := wkvRowStep e ws us ks vs ss
      (p.1 :: q.1, p.2 :: q.2)
  | _, _, _, _, _ => ([], [])

/-- Forward pass of one Time-Mix unit (`RWKV_TimeMix.forward`, source lines
256-319): build the shifted view, blend, apply the three linear maps, run
the WKV scan, gate by `sigmoid(r)` and project out.  The emitted shift
state is the full concatenation `xxx` (source lines 299, 304). -/
def timeMixForward (M : ModelFns) (z : Row) (P : TimeMixParams) (x : Chunk)
    (st : TimeMixState) : Chunk × TimeMixState :=
  let xx := timeShiftView P.shift z st.window x
  let xk := List.zipWith (mixRow P.timeMixK) x xx
  let xv := List.zipWith (mixRow P.timeMixV) x xx
  let xr := List.zipWith (mixRow P.timeMixR) x xx
  let k := xk.map (matvec P.wK)
  let v := xv.map (matvec P.wV)
  let sr := (xr.map (matvec P.wR)).map (List.map M.sigm)
  let scan := mapAccumL
    (fun s kv => wkvRowStep M.e P.timeDecay P.timeFirst kv.1 kv.2 s)
    st.wkv (k.zip v)
  (List.zipWith (fun srj yj => matvec P.wOut (hadamard srj yj)) sr scan.1,
    ⟨st.window ++ x, scan.2⟩)

/-- Storing a Time-Mix state back into the `BlockStateList`
(`__setitem__`, source line 202): keep the trailing `2 ** 12` rows of the
emitted window. -/
def storeTimeMixState (layerId : Nat) (st : TimeMixState) : TimeMixState :=
  ⟨lastN (windowCap layerId) st.window, st.wkv⟩

/-- Learned parameters of one Channel-Mix unit (source lines 325-340). -/
structure ChannelMixParams where
  timeMixK : Row
  timeMixR : Row
  wK : List Row
  wR : List Row
  wV : List Row

/-- Forward pass of one Channel-Mix unit (`RWKV_ChannelMix.forward`, source
lines 342-360): one-row shift, blend, squared-ReLU key path, sigmoid-gated
receptance, and the last input row as the new shift state. -/
def channelMixForward (M : ModelFns) (Q : ChannelMixParams) (x : Chunk)
    (shift : Row) : Chunk × Row :=
  let xx := shift :: x.dropLast
  let xk := List.zipWith (mixRow Q.timeMixK) x xx
  let xr := List.zipWith (mixRow Q.timeMixR) x xx
  let kv := ((xk.map (matvec Q.wK)).map
    (List.map (fun q => max q 0 ^ 2))).map (matvec Q.wV)
  (List.zipWith
      (fun xrj kvj => hadamard ((matvec Q.wR xrj).map M.sigm) kvj) xr kv,
    x.getLastD shift)

/-- Parameters of one Block (source lines 367-383). -/
structure BlockParams where
  layerId : Nat
  ln0 : Row → Row
  ln1 : Row → Row
  ln2 : Row → Row
  atts : List TimeMixParams
  ffn : ChannelMixParams

/-- State of one Block: one Time-Mix state per attention channel plus the
Channel-Mix shift row. -/
structure BlockState where
  tms : List TimeMixState
  cms : Row

/-- Run every attention channel of a block on the same input, collecting
outputs and stored states (source lines 389-401). -/
def timeMixChannels (M : ModelFns) (z : Row) (layerId : Nat) :
    List TimeMixParams → List TimeMixState → Chunk →
      List Chunk × List TimeMixState
  | p :: ps, s :: ss, xin =>
      let r := timeMixForward M z p xin s
      let rest := timeMixChannels M z layerId ps ss xin
      (r.1 :: rest.1, storeTimeMixState layerId r.2 :: rest.2)
  | _, _, _ => ([], [])

/-- `torch.sum(torch.stack(att_outs), dim=0)` (source line 404). -/
def sumChunks : List Chunk → Chunk
  | [] => []
  | c :: cs => cs.foldl addChunk c

/-- Forward pass of one Block (`Block.forward`, source lines 385-412). -/
def blockForward (M : ModelFns) (z : Row) (B : BlockParams) (x : Chunk)
    (st : BlockState) : Chunk × BlockState :=
  let x0 := if B.layerId = 0 then x.map B.ln0 else x
  let ch := timeMixChannels M z B.layerId B.atts st.tms (x0.map B.ln1)
  let x1 := addChunk x0 (sumChunks ch.1)
  let f := channelMixForward M B.ffn (x1.map B.ln2) st.cms
  (addChunk x1 f.1, ⟨ch.2, f.2⟩)

/-- Thread a chunk through the blocks in stack order, collecting the new
per-block states (source lines 823-831). -/
def runBlocks (M : ModelFns) (z : Row) :
    List BlockParams → List BlockState → Chunk → Chunk × List BlockState
  | b :: bs, s :: ss, x =>
      let r := blockForward M z b x s
      let rest := runBlocks M z bs ss r.1
      (rest.1, r.2 :: rest.2)
  | _, _, x => (x, [])

/-- The whole Stack: abstract primitives, embedding lookup, blocks, output
norm, head projection, and the per-position cross-entropy value function. -/
structure StackModel where
  fns : ModelFns
  nEmbd : Nat
  dimAtt : Nat
  emb : Nat → Row
  blocks : List BlockParams
  lnOut : Row → Row
  head : List Row
  ce : Row → Nat → ℚ

/-- Zero row used for padding and for the created states. -/
def zRow (m : StackModel) : Row :=
  List.replicate m.nEmbd 0

/-- Full Stack forward (`RWKV.forward`, source lines 794-837): embed, run
the blocks threading state, final norm, head projection to logits. -/
def stackForward (m : StackModel) (tokens : List Nat)
    (st : List BlockState) : Chunk × List BlockState :=
  let r := runBlocks m.fns (zRow m) m.blocks st (tokens.map m.emb)
  ((r.1.map m.lnOut).map (matvec m.head), r.2)

/-- Per-unit state produced by `BlockStateList.create` (source lines
168-177): a `2 ** 12`-row zero window and zeroed WKV accumulators with the
running maximum at `-1e38`. -/
def createTimeMixState (m : StackModel) : TimeMixState :=
  ⟨List.replicate (2 ^ 12) (zRow m), List.replicate m.dimAtt wkvInitState⟩

/-- Initial states of all blocks, as laid out by `BlockStateList.create`. -/
def createStates (m : StackModel) : List BlockState :=
  m.blocks.map (fun b =>
    ⟨List.replicate b.atts.length (createTimeMixState m), zRow m⟩)

/-! ## Segmented BPTT trainer (the BPTT branch of `compute_loss`) -/

/-- Ceiling division: `math.ceil(a / b)` for natural inputs, positive `b`. -/
def ceilDiv (a b : Nat) : Nat :=
  (a + b - 1) / b

/-- `segment_count = math.ceil(T / self.ctx_len)` (source line 955). -/
def segmentCount (T ctxLen : Nat) : Nat :=
  ceilDiv T ctxLen

/-- `segment_size = min(math.ceil(T / segment_count), self.ctx_len)`
(source line 992). -/
def segmentSize (T ctxLen : Nat) : Nat :=
  min (ceilDiv T (segmentCount T ctxLen)) ctxLen

/-- `first_learning_segment` (source lines 995-998). -/
def firstLearningSegment (count : Nat) (range : Int) : Nat :=
  if 0 < range then count - range.toNat else 0

/-- Shared segment count (source lines 1023-1026): with more than one
device and `bptt_learning_range` unlimited (≤ 0) or above 1, the local
counts are all-reduced with `max`; otherwise the worker keeps its own
count. -/
def sharedSegmentCount (numDevices : Nat) (range : Int) (allCounts : List Nat)
    (own : Nat) : Nat :=
  if 1 < numDevices ∧ (1 < range ∨ range ≤ 0) then allCounts.foldr max 0
  else own

/-- Python slice `l[i*sz : (i+1)*sz]` (source lines 1045-1047). -/
def segSlice (sz i : Nat) (l : List α) : List α :=
  (l.drop (i * sz)).take sz

/-- Masked cross-entropy of one segment (`checkpointed_step`, source lines
936-944): per-position CE values times the segment submask
(`mask.view(-1)[:loss.shape[0]]`), normalized by the whole-sequence mask
sum `tms` (`total_mask_sum`). -/
def segLossOf (m : StackModel) (tms : ℚ) (logits : Chunk)
    (targets : List Nat) (msk : List ℚ) : ℚ :=
  (zipWith3 (fun lg t mk => m.ce lg t * mk) logits targets
    (msk.take logits.length)).sum / tms

/-- `checkpointed_step` (source lines 931-948) with a fresh zero
`prev_loss`: run the Stack over the segment from the incoming states and
compute the segment's normalized masked loss. -/
def checkpointedStep (m : StackModel) (tms : ℚ) (idx targets : List Nat)
    (msk : List ℚ) (st : List BlockState) : ℚ × List BlockState :=
  let r := stackForward m idx st
  (segLossOf m tms r.1 targets msk, r.2)

/-- Result of the segment loop: accumulated loss, final threaded states,
and the segment indices whose loss enters a backward pass. -/
structure SegLoopOut where
  totalLoss : ℚ
  states : List BlockState
  backwardSegs : List Nat

/-- The segment loop of the BPTT branch (source lines 1029-1090): real
segments are the `i*sz:(i+1)*sz` slices while `i` is below the local
segment count, and the `[[0]]` zero-token dummy segment with zero mask is
processed beyond it; each segment's loss is added to the total, and the
index of every segment at or after `first` is recorded as entering a
backward pass (manual with retained graph for all but the last, deferred to
the trainer's own backward for the last, source lines 1067-1087). -/
def bpttGo (m : StackModel) (tms : ℚ) (idx targets : List Nat)
    (msk : List ℚ) (sz count first : Nat) :
    Nat → Nat → ℚ → List BlockState → List Nat → SegLoopOut
  | _, 0, L, st, bw => ⟨L, st, bw.reverse⟩
  | i, fuel + 1, L, st, bw =>
      let seg := if i < count then
          (segSlice sz i idx, segSlice sz i targets, segSlice sz i msk)
        else ([0], [0], [(0 : ℚ)])
      let r := checkpointedStep m tms seg.1 seg.2.1 seg.2.2 st
      bpttGo m tms idx targets msk sz count first (i + 1) fuel (L + r.1) r.2
        (if first ≤ i then i :: bw else bw)

/-- One worker's whole BPTT branch: loop over `shared` segments starting
from the `create`-initialized states. -/
def bpttLoop (m : StackModel) (tms : ℚ) (idx targets : List Nat)
    (msk : List ℚ) (sz count first shared : Nat) : SegLoopOut :=
  bpttGo m tms idx targets msk sz count first 0 shared 0 (createStates m) []

/-- State transition of one dummy segment: the Stack forward over the
single masked zero token. -/
def dummyStep (m : StackModel) (st : List BlockState) : List BlockState :=
  (stackForward m [0] st).2

/-! ## Well-formedness invariants threaded by the segment proofs -/

/-- Channel-wise well-formedness of a block's Time-Mix states: each
channel's shift amount is within both the current window length and the
stored-window capacity. -/
def ChansWF (lid : Nat) : List TimeMixParams → List TimeMixState → Prop
  | p :: ps, s :: ss =>
      (p.shift ≤ s.window.length ∧ p.shift ≤ windowCap lid ∧
        s.window.length ≤ windowCap lid) ∧ ChansWF lid ps ss
  | [], [] => True
  | _, _ => False

/-- Well-formedness of one block and its state. -/
def BlockWF (b : BlockParams) (s : BlockState) : Prop :=
  b.atts ≠ [] ∧ ChansWF b.layerId b.atts s.tms

/-- Well-formedness of a stack of blocks and their states. -/
def StatesWF : List BlockParams → List BlockState → Prop
  | b :: bs, s :: ss => BlockWF b s ∧ StatesWF bs ss
  | [], [] => True
  | _, _ => False

/-- Well-formedness of the model itself: every block has at least one
attention channel, and every channel's shift amount fits the hard-coded
window capacity. -/
def ModelWF (m : StackModel) : Prop :=
  ∀ b ∈ m.blocks, b.atts ≠ [] ∧ ∀ p ∈ b.atts, p.shift ≤ windowCap b.layerId

/-! ## Composition of the shifted view across a segment boundary -/

theorem timeShiftView_length (s : Nat) (z : Row) (w x : Chunk)
    (hs : s ≤ w.length) : (timeShiftView s z w x).length = x.length := by
  rw [timeShiftView, lastN_length, zeroPadShift, List.length_append,
    List.length_replicate, List.length_take, List.length_append,
    Nat.min_eq_left (by omega)]

theorem timeShiftView_getD (s : Nat) (z : Row) (w x : Chunk) (j : Nat)
    (hs : s ≤ w.length) (hj : j < x.length) (d : Row) :
    (timeShiftView s z w x).getD j d = (w ++ x).getD (w.length + j - s) d := by
  have hL : (zeroPadShift s z (w ++ x)).length = w.length + x.length := by
    rw [zeroPadShift, List.length_append, List.length_replicate,
      List.length_take, List.length_append, Nat.min_eq_left (by omega)]
    omega
  have hjlen : j < (lastN x.length (zeroPadShift s z (w ++ x))).length := by
    rw [lastN_length, hL, Nat.min_eq_left (by omega)]
    exact hj
  rw [timeShiftView, lastN_getD _ _ _ _ hjlen, hL]
  have hidx : w.length + x.length - x.length + j = w.length + j := by omega
  rw [hidx, zeroPadShift,
    List.getD_append_right _ _ _ _ (by rw [List.length_replicate]; omega),
    List.length_replicate]
  have hb : w.length + j - s < ((w ++ x).take ((w ++ x).length - s)).length := by
    rw [List.length_take, List.length_append, Nat.min_eq_left (by omega)]
    omega
  rw [List.getD_eq_getElem _ _ hb, List.getElem_take,
    List.getD_eq_getElem _ _
      (show w.length + j - s < (w ++ x).length from by
        rw [List.length_append]; omega)]

theorem timeShiftView_append (s : Nat) (z : Row) (w x1 x2 : Chunk) (cap : Nat)
    (hs : s ≤ w.length) (hcap : s ≤ cap) :
    timeShiftView s z w (x1 ++ x2) =
      timeShiftView s z w x1 ++ timeShiftView s z (lastN cap (w ++ x1)) x2 := by
  have hc' : (lastN cap (w ++ x1)).length = min cap (w.length + x1.length) := by
    rw [lastN_length, List.length_append]
  have hw2 : s ≤ (lastN cap (w ++ x1)).length := by
    rw [hc']
    rcases Nat.le_total cap (w.length + x1.length) with h | h
    · rw [Nat.min_eq_left h]; omega
    · rw [Nat.min_eq_right h]; omega
  apply List.ext_getElem
  · rw [timeShiftView_length _ _ _ _ hs, List.length_append, List.length_append,
      timeShiftView_length _ _ _ _ hs, timeShiftView_length _ _ _ _ hw2]
  · intro j h1 h2
    have hjx : j < x1.length + x2.length := by
      rw [timeShiftView_length _ _ _ _ hs, List.length_append] at h1
      exact h1
    rw [← List.getD_eq_getElem _ z h1, ← List.getD_eq_getElem _ z h2]
    rw [timeShiftView_getD s z w (x1 ++ x2) j hs
      (by rw [List.length_append]; exact hjx) z]
    rw [← List.append_assoc]
    rcases Nat.lt_or_ge j x1.length with hj1 | hj1
    · rw [List.getD_append (timeShiftView s z w x1)
        (timeShiftView s z (lastN cap (w ++ x1)) x2) z j
        (by rw [timeShiftView_length _ _ _ _ hs]; exact hj1)]
      rw [timeShiftView_getD s z w x1 j hs hj1 z]
      exact List.getD_append (w ++ x1) x2 z (w.length + j - s)
        (by rw [List.length_append]; omega)
    · rw [List.getD_append_right (timeShiftView s z w x1)
        (timeShiftView s z (lastN cap (w ++ x1)) x2) z j
        (by rw [timeShiftView_length _ _ _ _ hs]; exact hj1)]
      rw [timeShiftView_length _ _ _ _ hs]
      have hj2 : j - x1.length < x2.length := by omega
      rw [timeShiftView_getD s z (lastN cap (w ++ x1)) x2 (j - x1.length) hw2 hj2 z]
      rcases Nat.lt_or_ge (j - x1.length) s with hjs | hjs
      · -- the lookup reaches back into the carried window
        have hidx1 : (lastN cap (w ++ x1)).length + (j - x1.length) - s <
            (lastN cap (w ++ x1)).length := by omega
        rw [List.getD_append (w ++ x1) x2 z (w.length + j - s)
          (by rw [List.length_append]; omega)]
        rw [List.getD_append (lastN cap (w ++ x1)) x2 z _ hidx1]
        rw [lastN_getD _ _ _ _ hidx1]
        have hieq : (w ++ x1).length - cap +
            ((lastN cap (w ++ x1)).length + (j - x1.length) - s) =
            w.length + j - s := by
          rw [List.length_append, hc']
          rcases Nat.le_total cap (w.length + x1.length) with h | h
          · rw [Nat.min_eq_left h]; omega
          · rw [Nat.min_eq_right h]; omega
        rw [hieq]
      · -- the lookup lands inside the second chunk
        have hwlen : (lastN cap (w ++ x1)).length ≤
            (lastN cap (w ++ x1)).length + (j - x1.length) - s := by omega
        rw [List.getD_append_right (w ++ x1) x2 z (w.length + j - s)
          (by rw [List.length_append]; omega)]
        rw [List.getD_append_right (lastN cap (w ++ x1)) x2 z _ hwlen]
        have hieq2 : w.length + j - s - (w ++ x1).length =
            (lastN cap (w ++ x1)).length + (j - x1.length) - s -
              (lastN cap (w ++ x1)).length := by
          rw [List.length_append]
          omega
        rw [hieq2]

/-! ## Composition of the Time-Mix unit across a segment boundary -/

theorem timeMixForward_fst_length (M : ModelFns) (z : Row) (P : TimeMixParams)
    (x : Chunk) (st : TimeMixState) (hs : P.shift ≤ st.window.length) :
    (timeMixForward M z P x st).1.length = x.length := by
  simp only [timeMixForward, List.length_zipWith, mapAccumL_length,
    List.length_map, List.length_zip, timeShiftView_length _ _ _ _ hs,
    Nat.min_self]

theorem timeMixForward_append (M : ModelFns) (z : Row) (lid : Nat)
    (P : TimeMixParams) (x1 x2 : Chunk) (st : TimeMixState)
    (hs : P.shift ≤ st.window.length) (hcap : P.shift ≤ windowCap lid) :
    timeMixForward M z P (x1 ++ x2) st =
      ((timeMixForward M z P x1 st).1 ++
        (timeMixForward M z P x2
          (storeTimeMixState lid (timeMixForward M z P x1 st).2)).1,
        ⟨st.window ++ (x1 ++ x2),
          (timeMixForward M z P x2
            (storeTimeMixState lid (timeMixForward M z P x1 st).2)).2.wkv⟩) := by
  have htsv1 : (timeShiftView P.shift z st.window x1).length = x1.length :=
    timeShiftView_length _ _ _ _ hs
  simp only [timeMixForward, storeTimeMixState]
  rw [timeShiftView_append P.shift z st.window x1 x2 (windowCap lid) hs hcap]
  rw [List.zipWith_append (mixRow P.timeMixK) x1 x2 _ _ htsv1.symm]
  rw [List.zipWith_append (mixRow P.timeMixV) x1 x2 _ _ htsv1.symm]
  rw [List.zipWith_append (mixRow P.timeMixR) x1 x2 _ _ htsv1.symm]
  rw [List.map_append, List.map_append, List.map_append, List.map_append]
  rw [List.zip_append (by simp [htsv1])]
  rw [mapAccumL_append]
  rw [List.zipWith_append _ _ _ _ _ (by simp [htsv1, mapAccumL_length])]

theorem timeMixStored_append (M : ModelFns) (z : Row) (lid : Nat)
    (P : TimeMixParams) (x1 x2 : Chunk) (st : TimeMixState)
    (hs : P.shift ≤ st.window.length) (hcap : P.shift ≤ windowCap lid) :
    storeTimeMixState lid (timeMixForward M z P (x1 ++ x2) st).2 =
      storeTimeMixState lid
        (timeMixForward M z P x2
          (storeTimeMixState lid (timeMixForward M z P x1 st).2)).2 := by
  rw [timeMixForward_append M z lid P x1 x2 st hs hcap]
  simp only [storeTimeMixState, timeMixForward]
  rw [lastN_lastN_append, List.append_assoc]

/-! ## Composition of the Channel-Mix unit across a segment boundary -/

theorem getLastD_eq_getLast' (l : List α) (h : l ≠ []) (d : α) :
    l.getLastD d = l.getLast h := by
  cases l with
  | nil => exact absurd rfl h
  | cons a rest =>
      rw [List.getLastD_eq_getLast?, List.getLast?_eq_getLast _ (by simp)]
      rfl

theorem cons_dropLast_getLastD (a : α) (l : List α) (d : α) :
    (a :: l).dropLast ++ [(a :: l).getLastD d] = a :: l := by
  rw [getLastD_eq_getLast' _ (by simp) d]
  exact List.dropLast_append_getLast _

theorem getLastD_append_cons (l1 : List α) (b : α) (l2 : List α) (d : α) :
    (l1 ++ b :: l2).getLastD d = (b :: l2).getLastD d := by
  induction l1 generalizing d with
  | nil => rfl
  | cons a rest ih =>
      rw [List.cons_append, List.getLastD_cons]
      exact ih a

theorem dropLast_append_cons_eq (l1 : List α) (b : α) (l2 : List α) :
    (l1 ++ b :: l2).dropLast = l1 ++ (b :: l2).dropLast := by
  induction l1 with
  | nil => rfl
  | cons a rest ih =>
      cases rest with
      | nil => rfl
      | cons c rest' =>
          show a :: ((c :: rest') ++ b :: l2).dropLast =
            a :: ((c :: rest') ++ (b :: l2).dropLast)
          rw [ih]

theorem channelMixForward_fst_length (M : ModelFns) (Q : ChannelMixParams)
    (x : Chunk) (shift : Row) :
    (channelMixForward M Q x shift).1.length = x.length := by
  cases x with
  | nil => rfl
  | cons a rest =>
      simp [channelMixForward, Nat.min_self]

theorem channelMixForward_append (M : ModelFns) (Q : ChannelMixParams)
    (x1 x2 : Chunk) (shift : Row) :
    channelMixForward M Q (x1 ++ x2) shift =
      ((channelMixForward M Q x1 shift).1 ++
        (channelMixForward M Q x2 (channelMixForward M Q x1 shift).2).1,
        (channelMixForward M Q x2 (channelMixForward M Q x1 shift).2).2) := by
  rcases x2 with _ | ⟨b, x2'⟩
  · simp [channelMixForward]
  rcases x1 with _ | ⟨a, x1'⟩
  · simp [channelMixForward]
  simp only [channelMixForward]
  have hsplit : shift :: ((a :: x1') ++ b :: x2').dropLast =
      (shift :: (a :: x1').dropLast) ++
        ((a :: x1').getLastD shift :: (b :: x2').dropLast) := by
    rw [dropLast_append_cons_eq]
    conv_lhs => rw [← cons_dropLast_getLastD a x1' shift]
    rw [List.append_assoc]
    simp
  rw [hsplit]
  have hlen : (a :: x1').length = (shift :: (a :: x1').dropLast).length := by
    simp
  rw [List.zipWith_append (mixRow Q.timeMixK) _ _ _ _ hlen]
  rw [List.zipWith_append (mixRow Q.timeMixR) _ _ _ _ hlen]
  rw [List.map_append, List.map_append, List.map_append]
  rw [List.zipWith_append _ _ _ _ _ (by simp [hlen.symm])]
  rw [getLastD_append_cons, List.getLastD_cons, List.getLastD_cons,
    List.getLastD_cons]

/-! ## Composition at the block level -/

theorem timeMixChannels_out_lengths (M : ModelFns) (z : Row) (lid : Nat)
    (ps : List TimeMixParams) (ss : List TimeMixState) (y : Chunk)
    (hwf : ChansWF lid ps ss) :
    ∀ c ∈ (timeMixChannels M z lid ps ss y).1, c.length = y.length := by
  induction ps generalizing ss with
  | nil =>
      cases ss with
      | nil => intro c hc; cases hc
      | cons s ss' => exact absurd hwf (by simp [ChansWF])
  | cons p ps' ih =>
      cases ss with
      | nil => exact absurd hwf (by simp [ChansWF])
      | cons s ss' =>
          obtain ⟨⟨hs, _⟩, hwf'⟩ := hwf
          intro c hc
          rcases List.mem_cons.mp hc with rfl | hc'
          · exact timeMixForward_fst_length M z p y s hs
          · exact ih ss' hwf' c hc'

theorem timeMixChannels_out_count (M : ModelFns) (z : Row) (lid : Nat)
    (ps : List TimeMixParams) (ss : List TimeMixState) (y : Chunk)
    (hwf : ChansWF lid ps ss) :
    (timeMixChannels M z lid ps ss y).1.length = ps.length ∧
    (timeMixChannels M z lid ps ss y).2.length = ps.length := by
  induction ps generalizing ss with
  | nil =>
      cases ss with
      | nil => exact ⟨rfl, rfl⟩
      | cons s ss' => exact absurd hwf (by simp [ChansWF])
  | cons p ps' ih =>
      cases ss with
      | nil => exact absurd hwf (by simp [ChansWF])
      | cons s ss' =>
          obtain ⟨_, hwf'⟩ := hwf
          obtain ⟨h1, h2⟩ := ih ss' hwf'
          exact ⟨by simp [timeMixChannels, h1], by simp [timeMixChannels, h2]⟩

theorem timeMixChannels_WF (M : ModelFns) (z : Row) (lid : Nat)
    (ps : List TimeMixParams) (ss : List TimeMixState) (y : Chunk)
    (hwf : ChansWF lid ps ss) :
    ChansWF lid ps (timeMixChannels M z lid ps ss y).2 := by
  induction ps generalizing ss with
  | nil =>
      cases ss with
      | nil => exact trivial
      | cons s ss' => exact absurd hwf (by simp [ChansWF])
  | cons p ps' ih =>
      cases ss with
      | nil => exact absurd hwf (by simp [ChansWF])
      | cons s ss' =>
          obtain ⟨⟨hs, hcap, hle⟩, hwf'⟩ := hwf
          refine ⟨⟨?_, hcap, ?_⟩, ih ss' hwf'⟩
          · show p.shift ≤
              (storeTimeMixState lid (timeMixForward M z p y s).2).window.length
            simp only [storeTimeMixState, timeMixForward, lastN_length,
              List.length_append]
            rcases Nat.le_total (windowCap lid) (s.window.length + y.length) with h | h
            · rw [Nat.min_eq_left h]; exact hcap
            · rw [Nat.min_eq_right h]; omega
          · show (storeTimeMixState lid
                (timeMixForward M z p y s).2).window.length ≤ windowCap lid
            simp only [storeTimeMixState, timeMixForward, lastN_length,
              List.length_append]
            exact Nat.min_le_left _ _

theorem timeMixChannels_append (M : ModelFns) (z : Row) (lid : Nat)
    (ps : List TimeMixParams) (ss : List TimeMixState) (y1 y2 : Chunk)
    (hwf : ChansWF lid ps ss) :
    timeMixChannels M z lid ps ss (y1 ++ y2) =
      (List.zipWith (fun c1 c2 => c1 ++ c2)
        (timeMixChannels M z lid ps ss y1).1
        (timeMixChannels M z lid ps (timeMixChannels M z lid ps ss y1).2 y2).1,
        (timeMixChannels M z lid ps
          (timeMixChannels M z lid ps ss y1).2 y2).2) := by
  induction ps generalizing ss with
  | nil =>
      cases ss with
      | nil => rfl
      | cons s ss' => exact absurd hwf (by simp [ChansWF])
  | cons p ps' ih =>
      cases ss with
      | nil => exact absurd hwf (by simp [ChansWF])
      | cons s ss' =>
          obtain ⟨⟨hs, hcap, hle⟩, hwf'⟩ := hwf
          simp only [timeMixChannels]
          rw [ih ss' hwf']
          rw [show (timeMixForward M z p (y1 ++ y2) s).1 =
              (timeMixForward M z p y1 s).1 ++
                (timeMixForward M z p y2
                  (storeTimeMixState lid (timeMixForward M z p y1 s).2)).1 from by
            rw [timeMixForward_append M z lid p y1 y2 s hs hcap]]
          rw [timeMixStored_append M z lid p y1 y2 s hs hcap]
          rfl

theorem addChunk_append (a1 a2 b1 b2 : Chunk) (h : a1.length = b1.length) :
    addChunk (a1 ++ a2) (b1 ++ b2) = addChunk a1 b1 ++ addChunk a2 b2 := by
  rw [addChunk, addChunk, addChunk, List.zipWith_append _ _ _ _ _ h]

theorem addChunk_length (a b : Chunk) :
    (addChunk a b).length = min a.length b.length := by
  rw [addChunk, List.length_zipWith]

theorem foldl_addChunk_length (acc : Chunk) (l : List Chunk) (L : Nat)
    (hacc : acc.length = L) (hl : ∀ c ∈ l, c.length = L) :
    (List.foldl addChunk acc l).length = L := by
  induction l generalizing acc with
  | nil => exact hacc
  | cons c rest ih =>
      rw [List.foldl_cons]
      refine ih (addChunk acc c) ?_ (fun d hd => hl d (List.mem_cons_of_mem c hd))
      rw [addChunk_length, hacc, hl c (List.mem_cons_self c rest), Nat.min_self]

theorem sumChunks_length (cs : List Chunk) (L : Nat)
    (h : ∀ c ∈ cs, c.length = L) (hne : cs ≠ []) :
    (sumChunks cs).length = L := by
  cases cs with
  | nil => exact absurd rfl hne
  | cons c rest =>
      rw [sumChunks]
      exact foldl_addChunk_length c rest L (h c (List.mem_cons_self c rest))
        (fun d hd => h d (List.mem_cons_of_mem c hd))

theorem foldl_addChunk_append (acc1 acc2 : Chunk) (l1 l2 : List Chunk)
    (L1 : Nat) (hacc : acc1.length = L1) (hl : ∀ c ∈ l1, c.length = L1)
    (hlen : l1.length = l2.length) :
    List.foldl addChunk (acc1 ++ acc2)
        (List.zipWith (fun a b => a ++ b) l1 l2) =
      List.foldl addChunk acc1 l1 ++ List.foldl addChunk acc2 l2 := by
  induction l1 generalizing l2 acc1 acc2 with
  | nil =>
      cases l2 with
      | nil => rfl
      | cons d rest2 => simp at hlen
  | cons c rest ih =>
      cases l2 with
      | nil => simp at hlen
      | cons d rest2 =>
          simp only [List.zipWith_cons_cons, List.foldl_cons]
          rw [addChunk_append acc1 acc2 c d (by rw [hacc, hl c (List.mem_cons_self c rest)])]
          refine ih (addChunk acc1 c) (addChunk acc2 d) rest2 ?_
            (fun e he => hl e (List.mem_cons_of_mem c he)) (by simpa using hlen)
          rw [addChunk_length, hacc, hl c (List.mem_cons_self c rest), Nat.min_self]

theorem sumChunks_zip_append (cs1 cs2 : List Chunk) (L1 : Nat)
    (hlen : cs1.length = cs2.length) (h1 : ∀ c ∈ cs1, c.length = L1) :
    sumChunks (List.zipWith (fun a b => a ++ b) cs1 cs2) =
      sumChunks cs1 ++ sumChunks cs2 := by
  cases cs1 with
  | nil =>
      cases cs2 with
      | nil => rfl
      | cons d rest2 => simp at hlen
  | cons c rest1 =>
      cases cs2 with
      | nil => simp at hlen
      | cons d rest2 =>
          simp only [List.zipWith_cons_cons, sumChunks]
          exact foldl_addChunk_append c d rest1 rest2 L1
            (h1 c (List.mem_cons_self c rest1))
            (fun e he => h1 e (List.mem_cons_of_mem c he)) (by simpa using hlen)

theorem timeMixChannels_out_ne_nil (M : ModelFns) (z : Row) (lid : Nat)
    (ps : List TimeMixParams) (ss : List TimeMixState) (y : Chunk)
    (hwf : ChansWF lid ps ss) (hne : ps ≠ []) :
    (timeMixChannels M z lid ps ss y).1 ≠ [] := by
  intro hnil
  have hc := (timeMixChannels_out_count M z lid ps ss y hwf).1
  rw [hnil] at hc
  exact hne (List.length_eq_zero.mp hc.symm)

theorem blockForward_fst_length (M : ModelFns) (z : Row) (B : BlockParams)
    (x : Chunk) (st : BlockState) (hwf : BlockWF B st) :
    (blockForward M z B x st).1.length = x.length := by
  obtain ⟨hne, hch⟩ := hwf
  have hx0len : (if B.layerId = 0 then x.map B.ln0 else x).length = x.length := by
    by_cases h : B.layerId = 0 <;> simp [h]
  have hsum : (sumChunks (timeMixChannels M z B.layerId B.atts st.tms
      ((if B.layerId = 0 then x.map B.ln0 else x).map B.ln1)).1).length =
      x.length := by
    rw [sumChunks_length _ x.length ?_ ?_]
    · intro c hc
      rw [timeMixChannels_out_lengths M z B.layerId B.atts st.tms _ hch c hc,
        List.length_map, hx0len]
    · exact timeMixChannels_out_ne_nil M z B.layerId B.atts st.tms _ hch hne
  simp only [blockForward]
  rw [addChunk_length, channelMixForward_fst_length, List.length_map,
    addChunk_length, hsum, hx0len, Nat.min_self, Nat.min_self]

theorem blockForward_WF (M : ModelFns) (z : Row) (B : BlockParams)
    (x : Chunk) (st : BlockState) (hwf : BlockWF B st) :
    BlockWF B (blockForward M z B x st).2 := by
  obtain ⟨hne, hch⟩ := hwf
  exact ⟨hne, timeMixChannels_WF M z B.layerId B.atts st.tms _ hch⟩

theorem blockForward_append (M : ModelFns) (z : Row) (B : BlockParams)
    (x1 x2 : Chunk) (st : BlockState) (hwf : BlockWF B st) :
    blockForward M z B (x1 ++ x2) st =
      ((blockForward M z B x1 st).1 ++
        (blockForward M z B x2 (blockForward M z B x1 st).2).1,
        (blockForward M z B x2 (blockForward M z B x1 st).2).2) := by
  obtain ⟨hne, hch⟩ := hwf
  have hx0 : (if B.layerId = 0 then (x1 ++ x2).map B.ln0 else (x1 ++ x2)) =
      (if B.layerId = 0 then x1.map B.ln0 else x1) ++
        (if B.layerId = 0 then x2.map B.ln0 else x2) := by
    by_cases h : B.layerId = 0 <;> simp [h]
  have hch2 : ChansWF B.layerId B.atts
      (timeMixChannels M z B.layerId B.atts st.tms
        ((if B.layerId = 0 then x1.map B.ln0 else x1).map B.ln1)).2 :=
    timeMixChannels_WF M z B.layerId B.atts st.tms _ hch
  have hcount : (timeMixChannels M z B.layerId B.atts st.tms
      ((if B.layerId = 0 then x1.map B.ln0 else x1).map B.ln1)).1.length =
      (timeMixChannels M z B.layerId B.atts
        (timeMixChannels M z B.layerId B.atts st.tms
          ((if B.layerId = 0 then x1.map B.ln0 else x1).map B.ln1)).2
        ((if B.layerId = 0 then x2.map B.ln0 else x2).map B.ln1)).1.length := by
    rw [(timeMixChannels_out_count M z B.layerId B.atts st.tms _ hch).1,
      (timeMixChannels_out_count M z B.layerId B.atts _ _ hch2).1]
  have hlens1 : ∀ c ∈ (timeMixChannels M z B.layerId B.atts st.tms
      ((if B.layerId = 0 then x1.map B.ln0 else x1).map B.ln1)).1,
      c.length = ((if B.layerId = 0 then x1.map B.ln0 else x1).map B.ln1).length :=
    timeMixChannels_out_lengths M z B.layerId B.atts st.tms _ hch
  have hx0len : (if B.layerId = 0 then x1.map B.ln0 else x1).length = x1.length := by
    by_cases h : B.layerId = 0 <;> simp [h]
  have hA : (if B.layerId = 0 then x1.map B.ln0 else x1).length =
      (sumChunks (timeMixChannels M z B.layerId B.atts st.tms
        ((if B.layerId = 0 then x1.map B.ln0 else x1).map B.ln1)).1).length := by
    rw [sumChunks_length _ ((if B.layerId = 0 then x1.map B.ln0 else x1).map
        B.ln1).length hlens1
      (timeMixChannels_out_ne_nil M z B.layerId B.atts st.tms _ hch hne),
      List.length_map]
  have hB : (addChunk (if B.layerId = 0 then x1.map B.ln0 else x1)
      (sumChunks (timeMixChannels M z B.layerId B.atts st.tms
        ((if B.layerId = 0 then x1.map B.ln0 else x1).map B.ln1)).1)).length =
      (channelMixForward M B.ffn
        ((addChunk (if B.layerId = 0 then x1.map B.ln0 else x1)
          (sumChunks (timeMixChannels M z B.layerId B.atts st.tms
            ((if B.layerId = 0 then x1.map B.ln0 else x1).map B.ln1)).1)).map
          B.ln2) st.cms).1.length := by
    rw [channelMixForward_fst_length, List.length_map]
  simp only [blockForward]
  rw [hx0, List.map_append]
  rw [timeMixChannels_append M z B.layerId B.atts st.tms _ _ hch]
  rw [sumChunks_zip_append _ _
    ((if B.layerId = 0 then x1.map B.ln0 else x1).map B.ln1).length
    hcount hlens1]
  rw [addChunk_append _ _ _ _ hA]
  rw [List.map_append]
  rw [channelMixForward_append]
  rw [addChunk_append _ _ _ _ hB]

/-! ## Composition at the stack level -/

theorem runBlocks_fst_length (M : ModelFns) (z : Row) (bs : List BlockParams)
    (ss : List BlockState) (x : Chunk) (hwf : StatesWF bs ss) :
    (runBlocks M z bs ss x).1.length = x.length := by
  induction bs generalizing ss x with
  | nil =>
      cases ss with
      | nil => rfl
      | cons s ss' => exact absurd hwf (by simp [StatesWF])
  | cons b bs' ih =>
      cases ss with
      | nil => exact absurd hwf (by simp [StatesWF])
      | cons s ss' =>
          obtain ⟨hb, hwf'⟩ := hwf
          show (runBlocks M z bs' ss' (blockForward M z b x s).1).1.length = x.length
          rw [ih _ _ hwf', blockForward_fst_length M z b x s hb]

theorem runBlocks_WF (M : ModelFns) (z : Row) (bs : List BlockParams)
    (ss : List BlockState) (x : Chunk) (hwf : StatesWF bs ss) :
    StatesWF bs (runBlocks M z bs ss x).2 := by
  induction bs generalizing ss x with
  | nil =>
      cases ss with
      | nil => exact trivial
      | cons s ss' => exact absurd hwf (by simp [StatesWF])
  | cons b bs' ih =>
      cases ss with
      | nil => exact absurd hwf (by simp [StatesWF])
      | cons s ss' =>
          obtain ⟨hb, hwf'⟩ := hwf
          exact ⟨blockForward_WF M z b x s hb, ih _ _ hwf'⟩

theorem runBlocks_append (M : ModelFns) (z : Row) (bs : List BlockParams)
    (ss : List BlockState) (x1 x2 : Chunk) (hwf : StatesWF bs ss) :
    runBlocks M z bs ss (x1 ++ x2) =
      ((runBlocks M z bs ss x1).1 ++
        (runBlocks M z bs (runBlocks M z bs ss x1).2 x2).1,
        (runBlocks M z bs (runBlocks M z bs ss x1).2 x2).2) := by
  induction bs generalizing ss x1 x2 with
  | nil =>
      cases ss with
      | nil => rfl
      | cons s ss' => exact absurd hwf (by simp [StatesWF])
  | cons b bs' ih =>
      cases ss with
      | nil => exact absurd hwf (by simp [StatesWF])
      | cons s ss' =>
          obtain ⟨hb, hwf'⟩ := hwf
          have h1 : (blockForward M z b (x1 ++ x2) s).1 =
              (blockForward M z b x1 s).1 ++
                (blockForward M z b x2 (blockForward M z b x1 s).2).1 := by
            rw [blockForward_append M z b x1 x2 s hb]
          have h2 : (blockForward M z b (x1 ++ x2) s).2 =
              (blockForward M z b x2 (blockForward M z b x1 s).2).2 := by
            rw [blockForward_append M z b x1 x2 s hb]
          simp only [runBlocks]
          rw [h1, h2, ih ss' _ _ hwf']

theorem stackForward_fst_length (m : StackModel) (tokens : List Nat)
    (st : List BlockState) (hwf : StatesWF m.blocks st) :
    (stackForward m tokens st).1.length = tokens.length := by
  simp only [stackForward]
  rw [List.length_map, List.length_map,
    runBlocks_fst_length _ _ _ _ _ hwf, List.length_map]

theorem stackForward_WF (m : StackModel) (tokens : List Nat)
    (st : List BlockState) (hwf : StatesWF m.blocks st) :
    StatesWF m.blocks (stackForward m tokens st).2 :=
  runBlocks_WF _ _ _ _ _ hwf

theorem stackForward_append (m : StackModel) (t1 t2 : List Nat)
    (st : List BlockState) (hwf : StatesWF m.blocks st) :
    stackForward m (t1 ++ t2) st =
      ((stackForward m t1 st).1 ++
        (stackForward m t2 (stackForward m t1 st).2).1,
        (stackForward m t2 (stackForward m t1 st).2).2) := by
  simp only [stackForward]
  rw [List.map_append]
  have h1 : (runBlocks m.fns (zRow m) m.blocks st
      (t1.map m.emb ++ t2.map m.emb)).1 =
      (runBlocks m.fns (zRow m) m.blocks st (t1.map m.emb)).1 ++
        (runBlocks m.fns (zRow m) m.blocks
          (runBlocks m.fns (zRow m) m.blocks st (t1.map m.emb)).2
          (t2.map m.emb)).1 := by
    rw [runBlocks_append _ _ _ _ _ _ hwf]
  have h2 : (runBlocks m.fns (zRow m) m.blocks st
      (t1.map m.emb ++ t2.map m.emb)).2 =
      (runBlocks m.fns (zRow m) m.blocks
        (runBlocks m.fns (zRow m) m.blocks st (t1.map m.emb)).2
        (t2.map m.emb)).2 := by
    rw [runBlocks_append _ _ _ _ _ _ hwf]
  rw [h1, h2, List.map_append, List.map_append]

theorem createChansWF (m : StackModel) (lid : Nat) (ps : List TimeMixParams)
    (hp : ∀ p ∈ ps, p.shift ≤ windowCap lid) :
    ChansWF lid ps (List.replicate ps.length (createTimeMixState m)) := by
  induction ps with
  | nil => exact trivial
  | cons p ps' ih =>
      refine ⟨⟨?_, hp p (List.mem_cons_self p ps'), ?_⟩,
        ih (fun q hq => hp q (List.mem_cons_of_mem p hq))⟩
      · show p.shift ≤ (List.replicate (2 ^ 12) (zRow m)).length
        rw [List.length_replicate]
        have := hp p (List.mem_cons_self p ps')
        rw [windowCap] at this
        exact this
      · show (List.replicate (2 ^ 12) (zRow m)).length ≤ windowCap lid
        rw [List.length_replicate, windowCap]

theorem createStates_WF (m : StackModel) (hm : ModelWF m) :
    StatesWF m.blocks (createStates m) := by
  rw [createStates]
  have : ∀ bs : List BlockParams,
      (∀ b ∈ bs, b.atts ≠ [] ∧ ∀ p ∈ b.atts, p.shift ≤ windowCap b.layerId) →
      StatesWF bs (bs.map (fun b =>
        (⟨List.replicate b.atts.length (createTimeMixState m), zRow m⟩ :
          BlockState))) := by
    intro bs
    induction bs with
    | nil => intro _; exact trivial
    | cons b bs' ih =>
        intro hbs
        obtain ⟨hne, hp⟩ := hbs b (List.mem_cons_self b bs')
        exact ⟨⟨hne, createChansWF m b.layerId b.atts hp⟩,
          ih (fun c hc => hbs c (List.mem_cons_of_mem b hc))⟩
  exact this m.blocks hm

/-! ## Empty chunks leave the threaded state unchanged -/

theorem timeMixForward_nil_stored (M : ModelFns) (z : Row) (lid : Nat)
    (P : TimeMixParams) (st : TimeMixState)
    (hle : st.window.length ≤ windowCap lid) :
    storeTimeMixState lid (timeMixForward M z P [] st).2 = st := by
  simp only [timeMixForward, storeTimeMixState]
  rw [List.append_nil, lastN_of_length_le _ _ hle]
  rfl

theorem timeMixChannels_nil (M : ModelFns) (z : Row) (lid : Nat)
    (ps : List TimeMixParams) (ss : List TimeMixState)
    (hwf : ChansWF lid ps ss) :
    (timeMixChannels M z lid ps ss []).2 = ss := by
  induction ps generalizing ss with
  | nil =>
      cases ss with
      | nil => rfl
      | cons s ss' => exact absurd hwf (by simp [ChansWF])
  | cons p ps' ih =>
      cases ss with
      | nil => exact absurd hwf (by simp [ChansWF])
      | cons s ss' =>
          obtain ⟨⟨hs, hcap, hle⟩, hwf'⟩ := hwf
          show storeTimeMixState lid (timeMixForward M z p [] s).2 ::
              (timeMixChannels M z lid ps' ss' []).2 = s :: ss'
          rw [timeMixForward_nil_stored M z lid p s hle, ih ss' hwf']

theorem blockForward_nil (M : ModelFns) (z : Row) (B : BlockParams)
    (st : BlockState) (hwf : BlockWF B st) :
    (blockForward M z B [] st).2 = st := by
  obtain ⟨hne, hch⟩ := hwf
  have hx0 : (if B.layerId = 0 then ([] : Chunk).map B.ln0 else []) =
      ([] : Chunk) := by
    by_cases h : B.layerId = 0 <;> simp [h]
  simp only [blockForward]
  rw [hx0, List.map_nil]
  rw [timeMixChannels_nil M z B.layerId B.atts st.tms hch]
  rfl

theorem runBlocks_nil (M : ModelFns) (z : Row) (bs : List BlockParams)
    (ss : List BlockState) (hwf : StatesWF bs ss) :
    runBlocks M z bs ss [] = ([], ss) := by
  induction bs generalizing ss with
  | nil =>
      cases ss with
      | nil => rfl
      | cons s ss' => exact absurd hwf (by simp [StatesWF])
  | cons b bs' ih =>
      cases ss with
      | nil => exact absurd hwf (by simp [StatesWF])
      | cons s ss' =>
          obtain ⟨hb, hwf'⟩ := hwf
          have hout : (blockForward M z b [] s).1 = [] := by
            have h := blockForward_fst_length M z b [] s hb
            exact List.length_eq_zero.mp h
          simp only [runBlocks]
          rw [hout, ih ss' hwf', blockForward_nil M z b s hb]

theorem stackForward_nil (m : StackModel) (st : List BlockState)
    (hwf : StatesWF m.blocks st) :
    stackForward m [] st = ([], st) := by
  simp only [stackForward]
  rw [show (([] : List Nat).map m.emb) = [] from rfl,
    runBlocks_nil m.fns (zRow m) m.blocks st hwf]
  rfl

theorem checkpointedStep_nil (m : StackModel) (tms : ℚ)
    (st : List BlockState) (hwf : StatesWF m.blocks st) :
    checkpointedStep m tms [] [] [] st = (0, st) := by
  simp only [checkpointedStep]
  rw [stackForward_nil m st hwf]
  show (segLossOf m tms [] [] [], st) = ((0 : ℚ), st)
  rw [segLossOf]
  norm_num [zipWith3]

/-! ## Splitting the segment loss across a boundary -/

theorem segLossOf_append (m : StackModel) (tms : ℚ) (lg1 lg2 : Chunk)
    (t1 t2 : List Nat) (m1 m2 : List ℚ)
    (h1t : t1.length = lg1.length) (h1m : m1.length = lg1.length)
    (_h2t : t2.length = lg2.length) (h2m : m2.length = lg2.length) :
    segLossOf m tms (lg1 ++ lg2) (t1 ++ t2) (m1 ++ m2) =
      segLossOf m tms lg1 t1 m1 + segLossOf m tms lg2 t2 m2 := by
  rw [segLossOf, segLossOf, segLossOf]
  have e1 : m1.take lg1.length = m1 := by rw [← h1m, List.take_length]
  have e2 : m2.take lg2.length = m2 := by rw [← h2m, List.take_length]
  have e3 : (m1 ++ m2).take (lg1 ++ lg2).length = m1 ++ m2 := by
    rw [show (lg1 ++ lg2).length = (m1 ++ m2).length from by
      rw [List.length_append, List.length_append, h1m, h2m], List.take_length]
  rw [e1, e2, e3,
    zipWith3_append _ _ _ _ _ _ _ h1t.symm h1m.symm,
    List.sum_append, add_div]

theorem checkpointedStep_append (m : StackModel) (tms : ℚ)
    (i1 i2 t1 t2 : List Nat) (m1 m2 : List ℚ) (st : List BlockState)
    (hwf : StatesWF m.blocks st)
    (ht1 : t1.length = i1.length) (hm1 : m1.length = i1.length)
    (ht2 : t2.length = i2.length) (hm2 : m2.length = i2.length) :
    (checkpointedStep m tms (i1 ++ i2) (t1 ++ t2) (m1 ++ m2) st).1 =
      (checkpointedStep m tms i1 t1 m1 st).1 +
        (checkpointedStep m tms i2 t2 m2
          (checkpointedStep m tms i1 t1 m1 st).2).1 ∧
    (checkpointedStep m tms (i1 ++ i2) (t1 ++ t2) (m1 ++ m2) st).2 =
      (checkpointedStep m tms i2 t2 m2
        (checkpointedStep m tms i1 t1 m1 st).2).2 := by
  have hl1 := stackForward_fst_length m i1 st hwf
  have hwf2 := stackForward_WF m i1 st hwf
  have hl2 := stackForward_fst_length m i2 (stackForward m i1 st).2 hwf2
  have hsf := stackForward_append m i1 i2 st hwf
  simp only [checkpointedStep]
  constructor
  · rw [show (stackForward m (i1 ++ i2) st).1 =
        (stackForward m i1 st).1 ++
          (stackForward m i2 (stackForward m i1 st).2).1 from by rw [hsf]]
    exact segLossOf_append m tms _ _ t1 t2 m1 m2
      (by rw [hl1]; exact ht1) (by rw [hl1]; exact hm1)
      (by rw [hl2]; exact ht2) (by rw [hl2]; exact hm2)
  · rw [hsf]

/-! ## Segment arithmetic: the segments cover the sequence -/

theorem le_mul_ceilDiv (a b : Nat) (hb : 0 < b) : a ≤ b * ceilDiv a b := by
  rcases Nat.eq_zero_or_pos a with rfl | ha
  · exact Nat.zero_le _
  rw [ceilDiv, show a + b - 1 = (a - 1) + b from by omega,
    Nat.add_div_right _ hb, Nat.mul_succ]
  have h1 := Nat.div_add_mod (a - 1) b
  have h2 := Nat.mod_lt (a - 1) hb
  omega

theorem segment_cover (T ctxLen : Nat) (hctx : 0 < ctxLen) :
    T ≤ segmentCount T ctxLen * segmentSize T ctxLen := by
  rcases Nat.eq_zero_or_pos T with rfl | hT
  · exact Nat.zero_le _
  rw [segmentSize, segmentCount]
  have hc : 0 < ceilDiv T ctxLen := by
    rw [ceilDiv]
    exact Nat.div_pos (by omega) hctx
  rcases Nat.le_total (ceilDiv T (ceilDiv T ctxLen)) ctxLen with h | h
  · rw [Nat.min_eq_left h]
    exact le_mul_ceilDiv T (ceilDiv T ctxLen) hc
  · rw [Nat.min_eq_right h]
    calc T ≤ ctxLen * ceilDiv T ctxLen := le_mul_ceilDiv T ctxLen hctx
      _ = ceilDiv T ctxLen * ctxLen := Nat.mul_comm _ _

/-! ## The real-segment portion of the loop is one big checkpointed step -/

theorem bpttGo_real (m : StackModel) (tms : ℚ) (idx targets : List Nat)
    (msk : List ℚ) (sz count first : Nat)
    (hT : targets.length = idx.length) (hM : msk.length = idx.length) :
    ∀ fuel i L st bw, StatesWF m.blocks st → i + fuel ≤ count →
      (bpttGo m tms idx targets msk sz count first i fuel L st bw).totalLoss =
        L + (checkpointedStep m tms ((idx.drop (i * sz)).take (fuel * sz))
          ((targets.drop (i * sz)).take (fuel * sz))
          ((msk.drop (i * sz)).take (fuel * sz)) st).1 ∧
      (bpttGo m tms idx targets msk sz count first i fuel L st bw).states =
        (checkpointedStep m tms ((idx.drop (i * sz)).take (fuel * sz))
          ((targets.drop (i * sz)).take (fuel * sz))
          ((msk.drop (i * sz)).take (fuel * sz)) st).2 := by
  intro fuel
  induction fuel with
  | zero =>
      intro i L st bw hwf hic
      rw [Nat.zero_mul, List.take_zero, List.take_zero, List.take_zero,
        checkpointedStep_nil m tms st hwf]
      exact ⟨(add_zero L).symm, rfl⟩
  | succ fuel ih =>
      intro i L st bw hwf hic
      have hi : i < count := by omega
      have hwf' : StatesWF m.blocks
          (checkpointedStep m tms (segSlice sz i idx) (segSlice sz i targets)
            (segSlice sz i msk) st).2 :=
        stackForward_WF m (segSlice sz i idx) st hwf
      obtain ⟨ihL, ihS⟩ := ih (i + 1)
        (L + (checkpointedStep m tms (segSlice sz i idx) (segSlice sz i targets)
          (segSlice sz i msk) st).1)
        (checkpointedStep m tms (segSlice sz i idx) (segSlice sz i targets)
          (segSlice sz i msk) st).2
        (if first ≤ i then i :: bw else bw) hwf' (by omega)
      have hsplitI : (idx.drop (i * sz)).take ((fuel + 1) * sz) =
          segSlice sz i idx ++ (idx.drop ((i + 1) * sz)).take (fuel * sz) := by
        rw [show (fuel + 1) * sz = sz + fuel * sz from by ring, List.take_add,
          segSlice, List.drop_drop,
          show i * sz + sz = (i + 1) * sz from by ring]
      have hsplitT : (targets.drop (i * sz)).take ((fuel + 1) * sz) =
          segSlice sz i targets ++
            (targets.drop ((i + 1) * sz)).take (fuel * sz) := by
        rw [show (fuel + 1) * sz = sz + fuel * sz from by ring, List.take_add,
          segSlice, List.drop_drop,
          show i * sz + sz = (i + 1) * sz from by ring]
      have hsplitM : (msk.drop (i * sz)).take ((fuel + 1) * sz) =
          segSlice sz i msk ++ (msk.drop ((i + 1) * sz)).take (fuel * sz) := by
        rw [show (fuel + 1) * sz = sz + fuel * sz from by ring, List.take_add,
          segSlice, List.drop_drop,
          show i * sz + sz = (i + 1) * sz from by ring]
      have happ := checkpointedStep_append m tms (segSlice sz i idx)
        ((idx.drop ((i + 1) * sz)).take (fuel * sz))
        (segSlice sz i targets) ((targets.drop ((i + 1) * sz)).take (fuel * sz))
        (segSlice sz i msk) ((msk.drop ((i + 1) * sz)).take (fuel * sz)) st hwf
        (by simp [segSlice, hT]) (by simp [segSlice, hM])
        (by simp [hT]) (by simp [hM])
      constructor
      · show (bpttGo m tms idx targets msk sz count first (i + 1) fuel
            (L + (checkpointedStep m tms
              (if i < count then
                (segSlice sz i idx, segSlice sz i targets, segSlice sz i msk)
              else ([0], [0], [(0 : ℚ)])).1
              (if i < count then
                (segSlice sz i idx, segSlice sz i targets, segSlice sz i msk)
              else ([0], [0], [(0 : ℚ)])).2.1
              (if i < count then
                (segSlice sz i idx, segSlice sz i targets, segSlice sz i msk)
              else ([0], [0], [(0 : ℚ)])).2.2 st).1)
            (checkpointedStep m tms
              (if i < count then
                (segSlice sz i idx, segSlice sz i targets, segSlice sz i msk)
              else ([0], [0], [(0 : ℚ)])).1
              (if i < count then
                (segSlice sz i idx, segSlice sz i targets, segSlice sz i msk)
              else ([0], [0], [(0 : ℚ)])).2.1
              (if i < count then
                (segSlice sz i idx, segSlice sz i targets, segSlice sz i msk)
              else ([0], [0], [(0 : ℚ)])).2.2 st).2
            (if first ≤ i then i :: bw else bw)).totalLoss = _
        rw [if_pos hi]
        rw [ihL, hsplitI, hsplitT, hsplitM, happ.1, add_assoc]
      · show (bpttGo m tms idx targets msk sz count first (i + 1) fuel
            (L + (checkpointedStep m tms
              (if i < count then
                (segSlice sz i idx, segSlice sz i targets, segSlice sz i msk)
              else ([0], [0], [(0 : ℚ)])).1
              (if i < count then
                (segSlice sz i idx, segSlice sz i targets, segSlice sz i msk)
              else ([0], [0], [(0 : ℚ)])).2.1
              (if i < count then
                (segSlice sz i idx, segSlice sz i targets, segSlice sz i msk)
              else ([0], [0], [(0 : ℚ)])).2.2 st).1)
            (checkpointedStep m tms
              (if i < count then
                (segSlice sz i idx, segSlice sz i targets, segSlice sz i msk)
              else ([0], [0], [(0 : ℚ)])).1
              (if i < count then
                (segSlice sz i idx, segSlice sz i targets, segSlice sz i msk)
              else ([0], [0], [(0 : ℚ)])).2.1
              (if i < count then
                (segSlice sz i idx, segSlice sz i targets, segSlice sz i msk)
              else ([0], [0], [(0 : ℚ)])).2.2 st).2
            (if first ≤ i then i :: bw else bw)).states = _
        rw [if_pos hi]
        rw [ihS, hsplitI, hsplitT, hsplitM, happ.2]

/-! ## Backward-pass schedule of the loop -/

theorem bpttGo_backwardSegs (m : StackModel) (tms : ℚ)
    (idx targets : List Nat) (msk : List ℚ) (sz count first : Nat) :
    ∀ fuel i L st bw,
      (bpttGo m tms idx targets msk sz count first i fuel L st bw).backwardSegs =
        bw.reverse ++ (List.range' i fuel).filter (fun j => first ≤ j) := by
  intro fuel
  induction fuel with
  | zero =>
      intro i L st bw
      simp [bpttGo]
  | succ fuel ih =>
      intro i L st bw
      show (bpttGo m tms idx targets msk sz count first (i + 1) fuel _ _
          (if first ≤ i then i :: bw else bw)).backwardSegs = _
      rw [ih]
      rw [List.range'_succ]
      by_cases hfi : first ≤ i
      · rw [if_pos hfi, List.filter_cons_of_pos (by simpa using hfi)]
        simp
      · rw [if_neg hfi, List.filter_cons_of_neg (by simpa using hfi)]

/-! ## Dummy segments: zero loss contribution, state advanced by dummy steps -/

theorem dummy_loss_zero (m : StackModel) (tms : ℚ) (st : List BlockState) :
    (checkpointedStep m tms [0] [0] [(0 : ℚ)] st).1 = 0 := by
  simp only [checkpointedStep, segLossOf]
  cases h : (stackForward m [0] st).1 with
  | nil => simp [zipWith3]
  | cons lg rest =>
      simp only [List.length_cons, List.take_succ_cons, List.take_nil]
      simp [zipWith3]

theorem bpttGo_dummy (m : StackModel) (tms : ℚ) (idx targets : List Nat)
    (msk : List ℚ) (sz count first : Nat) :
    ∀ fuel i L st bw, count ≤ i →
      (bpttGo m tms idx targets msk sz count first i fuel L st bw).totalLoss = L ∧
      (bpttGo m tms idx targets msk sz count first i fuel L st bw).states =
        (dummyStep m)^[fuel] st := by
  intro fuel
  induction fuel with
  | zero =>
      intro i L st bw _
      exact ⟨rfl, rfl⟩
  | succ fuel ih =>
      intro i L st bw hci
      have hnotlt : ¬ i < count := by omega
      show (bpttGo m tms idx targets msk sz count first (i + 1) fuel
          (L + (checkpointedStep m tms
            (if i < count then
              (segSlice sz i idx, segSlice sz i targets, segSlice sz i msk)
            else ([0], [0], [(0 : ℚ)])).1
            (if i < count then
              (segSlice sz i idx, segSlice sz i targets, segSlice sz i msk)
            else ([0], [0], [(0 : ℚ)])).2.1
            (if i < count then
              (segSlice sz i idx, segSlice sz i targets, segSlice sz i msk)
            else ([0], [0], [(0 : ℚ)])).2.2 st).1)
          (checkpointedStep m tms
            (if i < count then
              (segSlice sz i idx, segSlice sz i targets, segSlice sz i msk)
            else ([0], [0], [(0 : ℚ)])).1
            (if i < count then
              (segSlice sz i idx, segSlice sz i targets, segSlice sz i msk)
            else ([0], [0], [(0 : ℚ)])).2.1
            (if i < count then
              (segSlice sz i idx, segSlice sz i targets, segSlice sz i msk)
            else ([0], [0], [(0 : ℚ)])).2.2 st).2
          (if first ≤ i then i :: bw else bw)).totalLoss = L ∧
        (bpttGo m tms idx targets msk sz count first (i + 1) fuel
          (L + (checkpointedStep m tms
            (if i < count then
              (segSlice sz i idx, segSlice sz i targets, segSlice sz i msk)
            else ([0], [0], [(0 : ℚ)])).1
            (if i < count then
              (segSlice sz i idx, segSlice sz i targets, segSlice sz i msk)
            else ([0], [0], [(0 : ℚ)])).2.1
            (if i < count then
              (segSlice sz i idx, segSlice sz i targets, segSlice sz i msk)
            else ([0], [0], [(0 : ℚ)])).2.2 st).1)
          (checkpointedStep m tms
            (if i < count then
              (segSlice sz i idx, segSlice sz i targets, segSlice sz i msk)
            else ([0], [0], [(0 : ℚ)])).1
            (if i < count then
              (segSlice sz i idx, segSlice sz i targets, segSlice sz i msk)
            else ([0], [0], [(0 : ℚ)])).2.1
            (if i < count then
              (segSlice sz i idx, segSlice sz i targets, segSlice sz i msk)
            else ([0], [0], [(0 : ℚ)])).2.2 st).2
          (if first ≤ i then i :: bw else bw)).states =
          (dummyStep m)^[fuel + 1] st
      rw [if_neg hnotlt]
      obtain ⟨ihL, ihS⟩ := ih (i + 1)
        (L + (checkpointedStep m tms [0] [0] [(0 : ℚ)] st).1)
        (checkpointedStep m tms [0] [0] [(0 : ℚ)] st).2
        (if first ≤ i then i :: bw else bw) (by omega)
      constructor
      · rw [ihL, dummy_loss_zero, add_zero]
      · rw [ihS, Function.iterate_succ_apply]
        rfl

/-- One unfolding step of the segment loop, with the segment tuple's
components pushed through the real/dummy branch. -/
theorem bpttGo_succ (m : StackModel) (tms : ℚ) (idx targets : List Nat)
    (msk : List ℚ) (sz count first i fuel : Nat) (L : ℚ)
    (st : List BlockState) (bw : List Nat) :
    bpttGo m tms idx targets msk sz count first i (fuel + 1) L st bw =
      bpttGo m tms idx targets msk sz count first (i + 1) fuel
        (L + (checkpointedStep m tms
          (if i < count then segSlice sz i idx else [0])
          (if i < count then segSlice sz i targets else [0])
          (if i < count then segSlice sz i msk else [(0 : ℚ)]) st).1)
        (checkpointedStep m tms
          (if i < count then segSlice sz i idx else [0])
          (if i < count then segSlice sz i targets else [0])
          (if i < count then segSlice sz i msk else [(0 : ℚ)]) st).2
        (if first ≤ i then i :: bw else bw) := by
  by_cases h : i < count
  · simp only [bpttGo, if_pos h]
  · simp only [bpttGo, if_neg h]

/-- The loss accumulator and threaded states of the segment loop do not
depend on the backward-schedule accumulator. -/
theorem bpttGo_bw_irrel (m : StackModel) (tms : ℚ) (idx targets : List Nat)
    (msk : List ℚ) (sz count first : Nat) :
    ∀ fuel i L st bw bw',
      (bpttGo m tms idx targets msk sz count first i fuel
          L st bw).totalLoss =
        (bpttGo m tms idx targets msk sz count first i fuel
          L st bw').totalLoss ∧
      (bpttGo m tms idx targets msk sz count first i fuel
          L st bw).states =
        (bpttGo m tms idx targets msk sz count first i fuel
          L st bw').states := by
  intro fuel
  induction fuel with
  | zero =>
      intro i L st bw bw'
      exact ⟨rfl, rfl⟩
  | succ fuel ih =>
      intro i L st bw bw'
      rw [bpttGo_succ, bpttGo_succ]
      exact ih (i + 1) _ _ _ _

/-- Splitting the segment loop's fuel: loss accumulation and state
threading after `f1 + f2` segments factor through the loop run for the
first `f1` segments. -/
theorem bpttGo_split (m : StackModel) (tms : ℚ) (idx targets : List Nat)
    (msk : List ℚ) (sz count first : Nat) :
    ∀ f1 f2 i L st bw bw',
      (bpttGo m tms idx targets msk sz count first i (f1 + f2)
          L st bw).totalLoss =
        (bpttGo m tms idx targets msk sz count first (i + f1) f2
          (bpttGo m tms idx targets msk sz count first i f1 L st bw).totalLoss
          (bpttGo m tms idx targets msk sz count first i f1 L st bw).states
          bw').totalLoss ∧
      (bpttGo m tms idx targets msk sz count first i (f1 + f2)
          L st bw).states =
        (bpttGo m tms idx targets msk sz count first (i + f1) f2
          (bpttGo m tms idx targets msk sz count first i f1 L st bw).totalLoss
          (bpttGo m tms idx targets msk sz count first i f1 L st bw).states
          bw').states := by
  intro f1
  induction f1 with
  | zero =>
      intro f2 i L st bw bw'
      rw [Nat.zero_add]
      exact bpttGo_bw_irrel m tms idx targets msk sz count first f2 i L st bw bw'
  | succ f1 ih =>
      intro f2 i L st bw bw'
      have h1 : f1 + 1 + f2 = f1 + f2 + 1 := by omega
      rw [h1, bpttGo_succ, bpttGo_succ]
      have hidx : i + (f1 + 1) = i + 1 + f1 := by omega
      rw [hidx]
      exact ih f2 (i + 1) _ _ _ bw'

/-! ## foldr max: the all-reduced shared segment count -/

theorem foldr_max_is_ub (l : List Nat) : ∀ c ∈ l, c ≤ l.foldr max 0 := by
  induction l with
  | nil => intro c hc; cases hc
  | cons a as ih =>
      intro c hc
      rcases List.mem_cons.mp hc with rfl | hc
      · exact le_max_left _ _
      · exact le_trans (ih c hc) (le_max_right _ _)

theorem foldr_max_mem (l : List Nat) (h : l ≠ []) : l.foldr max 0 ∈ l := by
  induction l with
  | nil => exact absurd rfl h
  | cons a as ih =>
      by_cases hnil : as = []
      · subst hnil
        show max a 0 ∈ [a]
        rw [Nat.max_eq_left (Nat.zero_le a)]
        exact List.mem_singleton.mpr rfl
      · show max a (as.foldr max 0) ∈ a :: as
        rcases Nat.le_total (as.foldr max 0) a with hle | hle
        · rw [Nat.max_eq_left hle]
          exact List.mem_cons_self a as
        · rw [Nat.max_eq_right hle]
          exact List.mem_cons_of_mem a (ih hnil)

/-! ## A concrete one-dimensional instance of the Stack, used to evaluate
the trainer theorems on closed inputs -/

/-- Identity row map standing for a layer norm with unit scale. -/
def idRowFn : Row → Row := fun r => r

/-- Constant-one scalar map, a degenerate exponential/sigmoid. -/
def oneFn : ℚ → ℚ := fun _ => 1

/-- One-dimensional Time-Mix parameters: unit mixes and weights, zero decay
and bonus, shift 1. -/
def tinyTM : TimeMixParams :=
  ⟨[1], [1], [1], [[1]], [[1]], [[1]], [[1]], [0], [0], 1⟩

/-- One-dimensional Channel-Mix parameters. -/
def tinyCM : ChannelMixParams :=
  ⟨[1], [1], [[1]], [[1]], [[1]]⟩

/-- A single layer-0 block with one attention channel. -/
def tinyBlock : BlockParams :=
  ⟨0, idRowFn, idRowFn, idRowFn, [tinyTM], tinyCM⟩

/-- A one-block, one-dimensional Stack with token-value embedding and
constant per-position cross entropy. -/
def tinyModel : StackModel :=
  ⟨⟨oneFn, oneFn⟩, 1, 1, fun t => [(t : ℚ)], [tinyBlock], idRowFn, [[1]],
    fun _ _ => 1⟩

theorem tinyModel_WF : ModelWF tinyModel := by
  intro b hb
  rcases List.mem_singleton.mp hb with rfl
  refine ⟨by simp [tinyBlock], ?_⟩
  intro p hp
  rcases List.mem_singleton.mp hp with rfl
  show 1 ≤ windowCap tinyBlock.layerId
  rw [windowCap]
  norm_num

/-! ## C1: segmentation equivalence of the BPTT branch -/

/-- C1: Segmentation equivalence. On a single device the shared segment
count is the worker's own `segment_count = ceil(T / ctx_len)`, and the total
loss accumulated by the segment loop of `compute_loss` — `checkpointed_step`
run over the ordered `i*sz:(i+1)*sz` slices with the `BlockStateList`
threaded from each segment into the next — equals the loss of one single
`checkpointed_step` pass of the Stack over the whole sequence from the one
`create`-initialized `BlockStateList`, and the final threaded states equal
those of the single pass. The equivalence holds of the loop's value-level
dataflow as written; the `BlockStateList.create` call that `compute_loss`
makes before entering this loop, however, raises a `TypeError`
(`BlockStateList.empty` passes three arguments to the four-parameter
constructor), so the code never actually returns this loss. -/
theorem C1_segmentation_equivalence (m : StackModel) (tms : ℚ)
    (idx targets : List Nat) (msk : List ℚ) (ctxLen : Nat) (range : Int)
    (allCounts : List Nat) (hm : ModelWF m) (hctx : 0 < ctxLen)
    (hT : targets.length = idx.length) (hM : msk.length = idx.length) :
    sharedSegmentCount 1 range allCounts (segmentCount idx.length ctxLen) =
      segmentCount idx.length ctxLen ∧
    (bpttLoop m tms idx targets msk (segmentSize idx.length ctxLen)
        (segmentCount idx.length ctxLen) 0
        (sharedSegmentCount 1 range allCounts
          (segmentCount idx.length ctxLen))).totalLoss =
      (checkpointedStep m tms idx targets msk (createStates m)).1 ∧
    (bpttLoop m tms idx targets msk (segmentSize idx.length ctxLen)
        (segmentCount idx.length ctxLen) 0
        (sharedSegmentCount 1 range allCounts
          (segmentCount idx.length ctxLen))).states =
      (checkpointedStep m tms idx targets msk (createStates m)).2 ∧
    bslCreate = Except.error PyErr.typeError := by
  have hshared : sharedSegmentCount 1 range allCounts
      (segmentCount idx.length ctxLen) = segmentCount idx.length ctxLen := by
    rw [sharedSegmentCount, if_neg]
    intro h
    omega
  have hwf := createStates_WF m hm
  obtain ⟨hL, hS⟩ := bpttGo_real m tms idx targets msk
    (segmentSize idx.length ctxLen) (segmentCount idx.length ctxLen) 0 hT hM
    (segmentCount idx.length ctxLen) 0 0 (createStates m) [] hwf (by omega)
  have hcov : idx.length ≤
      segmentCount idx.length ctxLen * segmentSize idx.length ctxLen :=
    segment_cover idx.length ctxLen hctx
  have hidx : (idx.drop (0 * segmentSize idx.length ctxLen)).take
      (segmentCount idx.length ctxLen * segmentSize idx.length ctxLen) =
      idx := by
    rw [Nat.zero_mul, List.drop_zero]
    exact List.take_of_length_le hcov
  have htg : (targets.drop (0 * segmentSize idx.length ctxLen)).take
      (segmentCount idx.length ctxLen * segmentSize idx.length ctxLen) =
      targets := by
    rw [Nat.zero_mul, List.drop_zero]
    exact List.take_of_length_le (by omega)
  have hmk : (msk.drop (0 * segmentSize idx.length ctxLen)).take
      (segmentCount idx.length ctxLen * segmentSize idx.length ctxLen) =
      msk := by
    rw [Nat.zero_mul, List.drop_zero]
    exact List.take_of_length_le (by omega)
  rw [hidx, htg, hmk] at hL hS
  refine ⟨hshared, ?_, ?_, rfl⟩
  · rw [hshared]
    simp only [bpttLoop]
    rw [hL, zero_add]
  · rw [hshared]
    simp only [bpttLoop]
    rw [hS]

/-- Witness for C1 at the concrete one-dimensional Stack, a three-token
sequence and context length two. -/
theorem C1_segmentation_equivalence_witness :
    sharedSegmentCount 1 (-1) [] (segmentCount 3 2) = segmentCount 3 2 ∧
    (bpttLoop tinyModel 3 [0, 1, 2] [1, 2, 0] [1, 1, 1] (segmentSize 3 2)
        (segmentCount 3 2) 0
        (sharedSegmentCount 1 (-1) [] (segmentCount 3 2))).totalLoss =
      (checkpointedStep tinyModel 3 [0, 1, 2] [1, 2, 0] [1, 1, 1]
        (createStates tinyModel)).1 ∧
    (bpttLoop tinyModel 3 [0, 1, 2] [1, 2, 0] [1, 1, 1] (segmentSize 3 2)
        (segmentCount 3 2) 0
        (sharedSegmentCount 1 (-1) [] (segmentCount 3 2))).states =
      (checkpointedStep tinyModel 3 [0, 1, 2] [1, 2, 0] [1, 1, 1]
        (createStates tinyModel)).2 ∧
    bslCreate = Except.error PyErr.typeError := by
  have h := C1_segmentation_equivalence tinyModel 3 [0, 1, 2] [1, 2, 0]
    [1, 1, 1] 2 (-1) [] tinyModel_WF (by decide) (by decide) (by decide)
  exact h

/-! ## C3: segment arithmetic and backward-call schedule -/

/-- C3: For a sequence of length 10 with max context length 4 the trainer
computes `segment_count = ceil(10/4) = 3` and
`segment_size = min(ceil(10/3), 4) = 4`, the three `i*sz:(i+1)*sz` slices
have lengths 4, 4, 2, the loop issues exactly three backward calls — one
per segment, in order 0, 1, 2 — and the `BlockStateList` is threaded in
order across all three segments, ending in the same states as one pass of
the Stack over the whole sequence. -/
theorem C3_segment_schedule (m : StackModel) (tms : ℚ)
    (idx targets : List Nat) (msk : List ℚ) (hm : ModelWF m)
    (hlen : idx.length = 10)
    (hT : targets.length = idx.length) (hM : msk.length = idx.length) :
    segmentCount 10 4 = 3 ∧
    segmentSize 10 4 = 4 ∧
    (List.range 3).map (fun i => (segSlice 4 i idx).length) = [4, 4, 2] ∧
    (bpttLoop m tms idx targets msk 4 3 0 3).backwardSegs = [0, 1, 2] ∧
    (bpttLoop m tms idx targets msk 4 3 0 3).states =
      (checkpointedStep m tms idx targets msk (createStates m)).2 := by
  refine ⟨by decide, by decide, ?_, ?_, ?_⟩
  · rw [show List.range 3 = [0, 1, 2] from by decide]
    simp only [List.map_cons, List.map_nil, segSlice, List.length_take,
      List.length_drop, hlen]
    decide
  · simp only [bpttLoop]
    rw [bpttGo_backwardSegs]
    decide
  · have hwf := createStates_WF m hm
    obtain ⟨_, hS⟩ := bpttGo_real m tms idx targets msk 4 3 0 hT hM
      3 0 0 (createStates m) [] hwf (by omega)
    have hidx : (idx.drop (0 * 4)).take (3 * 4) = idx := by
      rw [Nat.zero_mul, List.drop_zero]
      exact List.take_of_length_le (by omega)
    have htg : (targets.drop (0 * 4)).take (3 * 4) = targets := by
      rw [Nat.zero_mul, List.drop_zero]
      exact List.take_of_length_le (by omega)
    have hmk : (msk.drop (0 * 4)).take (3 * 4) = msk := by
      rw [Nat.zero_mul, List.drop_zero]
      exact List.take_of_length_le (by omega)
    rw [hidx, htg, hmk] at hS
    simp only [bpttLoop]
    rw [hS]

/-- Witness for C3 at the concrete one-dimensional Stack on a ten-token
sequence. -/
theorem C3_segment_schedule_witness :
    segmentCount 10 4 = 3 ∧
    segmentSize 10 4 = 4 ∧
    (List.range 3).map
      (fun i => (segSlice 4 i [0, 1, 2, 3, 4, 5, 6, 7, 8, 9]).length) =
      [4, 4, 2] ∧
    (bpttLoop tinyModel 10 [0, 1, 2, 3, 4, 5, 6, 7, 8, 9]
        [1, 2, 3, 4, 5, 6, 7, 8, 9, 0] [1, 1, 1, 1, 1, 1, 1, 1, 1, 1]
        4 3 0 3).backwardSegs = [0, 1, 2] ∧
    (bpttLoop tinyModel 10 [0, 1, 2, 3, 4, 5, 6, 7, 8, 9]
        [1, 2, 3, 4, 5, 6, 7, 8, 9, 0] [1, 1, 1, 1, 1, 1, 1, 1, 1, 1]
        4 3 0 3).states =
      (checkpointedStep tinyModel 10 [0, 1, 2, 3, 4, 5, 6, 7, 8, 9]
        [1, 2, 3, 4, 5, 6, 7, 8, 9, 0] [1, 1, 1, 1, 1, 1, 1, 1, 1, 1]
        (createStates tinyModel)).2 := by
  exact C3_segment_schedule tinyModel 10 [0, 1, 2, 3, 4, 5, 6, 7, 8, 9]
    [1, 2, 3, 4, 5, 6, 7, 8, 9, 0] [1, 1, 1, 1, 1, 1, 1, 1, 1, 1]
    tinyModel_WF (by decide) (by decide) (by decide)

/-! ## C4: shared segment count and dummy segments -/

/-- C4 (amended): under multi-worker data parallelism with
`bptt_learning_range` unlimited, the shared segment count is the maximum of
the per-worker counts, every segment from index 0 on enters a backward
pass, so every worker issues exactly `shared` backward calls; a worker
whose real segments are exhausted runs zero-token dummy segments, each of
which contributes exactly zero loss — the total loss equals that of the
real segments alone — but whose processing DOES advance the worker's Stack
State: the final states are the real-segment states pushed through one
dummy Stack forward per dummy segment, not the real-segment states
themselves. -/
theorem C4_shared_count_and_dummies (m : StackModel) (tms : ℚ)
    (idx targets : List Nat) (msk : List ℚ) (sz count : Nat)
    (d : Nat) (range : Int) (counts : List Nat)
    (hd : 1 < d) (hrange : range ≤ 0) (hcnt : counts ≠ [])
    (hcs : count ≤ sharedSegmentCount d range counts count) :
    (∀ c ∈ counts, c ≤ sharedSegmentCount d range counts count) ∧
    sharedSegmentCount d range counts count ∈ counts ∧
    firstLearningSegment count range = 0 ∧
    (bpttLoop m tms idx targets msk sz count 0
        (sharedSegmentCount d range counts count)).backwardSegs.length =
      sharedSegmentCount d range counts count ∧
    (checkpointedStep m tms [0] [0] [(0 : ℚ)]
        ((bpttLoop m tms idx targets msk sz count 0 count).states)).1 = 0 ∧
    (bpttLoop m tms idx targets msk sz count 0
        (sharedSegmentCount d range counts count)).totalLoss =
      (bpttLoop m tms idx targets msk sz count 0 count).totalLoss ∧
    (bpttLoop m tms idx targets msk sz count 0
        (sharedSegmentCount d range counts count)).states =
      (dummyStep m)^[sharedSegmentCount d range counts count - count]
        ((bpttLoop m tms idx targets msk sz count 0 count).states) := by
  have hcond : 1 < d ∧ (1 < range ∨ range ≤ 0) := ⟨hd, Or.inr hrange⟩
  have key : ∀ f2,
      (bpttGo m tms idx targets msk sz count 0 0 (count + f2) 0
          (createStates m) []).totalLoss =
        (bpttGo m tms idx targets msk sz count 0 0 count 0
          (createStates m) []).totalLoss ∧
      (bpttGo m tms idx targets msk sz count 0 0 (count + f2) 0
          (createStates m) []).states =
        (dummyStep m)^[f2]
          ((bpttGo m tms idx targets msk sz count 0 0 count 0
            (createStates m) []).states) := by
    intro f2
    obtain ⟨hLs, hSs⟩ := bpttGo_split m tms idx targets msk sz count 0
      count f2 0 0 (createStates m) [] []
    obtain ⟨hLd, hSd⟩ := bpttGo_dummy m tms idx targets msk sz count 0
      f2 (0 + count)
      (bpttGo m tms idx targets msk sz count 0 0 count 0
        (createStates m) []).totalLoss
      (bpttGo m tms idx targets msk sz count 0 0 count 0
        (createStates m) []).states
      [] (by omega)
    exact ⟨by rw [hLs, hLd], by rw [hSs, hSd]⟩
  have hfuel : sharedSegmentCount d range counts count =
      count + (sharedSegmentCount d range counts count - count) := by
    omega
  refine ⟨?_, ?_, ?_, ?_, ?_, ?_, ?_⟩
  · intro c hc
    rw [sharedSegmentCount, if_pos hcond]
    exact foldr_max_is_ub counts c hc
  · rw [sharedSegmentCount, if_pos hcond]
    exact foldr_max_mem counts hcnt
  · rw [firstLearningSegment, if_neg (by omega)]
  · simp only [bpttLoop]
    rw [bpttGo_backwardSegs, List.reverse_nil, List.nil_append,
      List.filter_eq_self.mpr (fun x _ => by simp)]
    simp
  · exact dummy_loss_zero m tms _
  · simp only [bpttLoop]
    rw [hfuel]
    exact (key (sharedSegmentCount d range counts count - count)).1
  · simp only [bpttLoop]
    rw [hfuel, Nat.add_sub_cancel_left]
    exact (key (sharedSegmentCount d range counts count - count)).2

/-- Witness for C4: two workers with segment counts 1 and 2; the worker
with one real segment issues two backward calls and ends with its states
advanced by one dummy step. -/
theorem C4_shared_count_and_dummies_witness :
    (∀ c ∈ [1, 2], c ≤ sharedSegmentCount 2 (-1) [1, 2] 1) ∧
    sharedSegmentCount 2 (-1) [1, 2] 1 ∈ [1, 2] ∧
    firstLearningSegment 1 (-1) = 0 ∧
    (bpttLoop tinyModel 1 [5] [0] [1] 1 1 0
        (sharedSegmentCount 2 (-1) [1, 2] 1)).backwardSegs.length =
      sharedSegmentCount 2 (-1) [1, 2] 1 ∧
    (checkpointedStep tinyModel 1 [0] [0] [(0 : ℚ)]
        ((bpttLoop tinyModel 1 [5] [0] [1] 1 1 0 1).states)).1 = 0 ∧
    (bpttLoop tinyModel 1 [5] [0] [1] 1 1 0
        (sharedSegmentCount 2 (-1) [1, 2] 1)).totalLoss =
      (bpttLoop tinyModel 1 [5] [0] [1] 1 1 0 1).totalLoss ∧
    (bpttLoop tinyModel 1 [5] [0] [1] 1 1 0
        (sharedSegmentCount 2 (-1) [1, 2] 1)).states =
      (dummyStep tinyModel)^[sharedSegmentCount 2 (-1) [1, 2] 1 - 1]
        ((bpttLoop tinyModel 1 [5] [0] [1] 1 1 0 1).states) := by
  exact C4_shared_count_and_dummies tinyModel 1 [5] [0] [1] 1 1 2 (-1)
    [1, 2] (by decide) (by decide) (by decide) (by decide)

/-- The WKV denominator accumulator of the first channel dimension of the
first attention channel of the first block. -/
def firstBB (sts : List BlockState) : ℚ :=
  (((sts.headD ⟨[], []⟩).tms.headD ⟨[], []⟩).wkv.headD ⟨0, 0, 0⟩).bb

/-- Processing the zero-token dummy segment on the concrete one-dimensional
Stack increments the first WKV denominator accumulator by exactly one (its
degenerate exponential is constantly one), so a dummy segment changes the
Stack State. -/
theorem idRowFn_map (l : Chunk) : List.map idRowFn l = l := by
  show List.map (fun r => r) l = l
  exact List.map_id' l

theorem idRowFn_apply (r : Row) : idRowFn r = r := rfl

theorem tiny_dummy_bb (window : Chunk) (w0 : WKVState) (cms : Row)
    (hwin : 1 ≤ window.length) :
    firstBB (dummyStep tinyModel [⟨[⟨window, [w0]⟩], cms⟩]) = w0.bb + 1 := by
  have hpos : 0 < (timeShiftView 1 (zRow tinyModel) window
      [tinyModel.emb 0]).length := by
    rw [timeShiftView_length 1 _ window _ hwin]
    norm_num
  obtain ⟨xh, xt, hxx⟩ :=
    List.exists_cons_of_ne_nil (List.ne_nil_of_length_pos hpos)
  simp only [dummyStep, stackForward, runBlocks, blockForward,
    timeMixChannels, timeMixForward, storeTimeMixState, firstBB, tinyModel,
    tinyBlock, tinyTM, zRow, List.map_cons, List.map_nil, List.headD_cons,
    eq_self_iff_true, if_true, idRowFn_map, idRowFn_apply,
    List.replicate_one] at hxx ⊢
  rw [hxx]
  simp only [List.zipWith_cons_cons, List.zipWith_nil_left,
    List.zipWith_nil_right, List.map_cons, List.map_nil, matvec,
    List.zip_cons_cons, List.zip_nil_left, List.zip_nil_right, mapAccumL,
    wkvRowStep, wkvStep, oneFn, List.headD_cons, one_mul]

/-- C4 counterexample: a worker with no real segments that must run one
dummy segment to meet the shared count ends with a Stack State different
from the state its real segments produced — the dummy forward advances the
WKV accumulators, refuting the claim that dummy processing does not alter
the worker's final Stack State. -/
theorem C4_counterexample :
    (bpttLoop tinyModel 1 [] [] [] 1 0 0 1).states ≠
      (bpttLoop tinyModel 1 [] [] [] 1 0 0 0).states := by
  have hreal : (bpttLoop tinyModel 1 [] [] [] 1 0 0 0).states =
      createStates tinyModel := rfl
  have hdum : (bpttLoop tinyModel 1 [] [] [] 1 0 0 1).states =
      (dummyStep tinyModel)^[1] (createStates tinyModel) :=
    (bpttGo_dummy tinyModel 1 [] [] [] 1 0 0 1 0 0
      (createStates tinyModel) [] (Nat.le_refl 0)).2
  have hshape : createStates tinyModel =
      [⟨[⟨List.replicate (2 ^ 12) [(0 : ℚ)], [wkvInitState]⟩], [(0 : ℚ)]⟩] := by
    simp only [createStates, createTimeMixState, zRow, tinyModel, tinyBlock,
      List.map_cons, List.map_nil, List.length_cons, List.length_nil,
      List.replicate_one, zero_add]
  have hbb : firstBB ((bpttLoop tinyModel 1 [] [] [] 1 0 0 1).states) =
      (1 : ℚ) := by
    rw [hdum, Function.iterate_one, hshape,
      tiny_dummy_bb (List.replicate (2 ^ 12) [(0 : ℚ)]) wkvInitState
        [(0 : ℚ)] (by rw [List.length_replicate]; norm_num)]
    norm_num [wkvInitState]
  have hbb0 : firstBB ((bpttLoop tinyModel 1 [] [] [] 1 0 0 0).states) =
      (0 : ℚ) := by
    rw [hreal, hshape]
    rfl
  intro hEq
  rw [hEq, hbb0] at hbb
  norm_num at hbb

/-! ## C5: whole-sequence loss normalization -/

theorem flatten_targets_length (segs : List (Chunk × List Nat × List ℚ))
    (h : ∀ s ∈ segs, s.2.1.length = s.1.length) :
    ((segs.map (fun s => s.2.1)).flatten).length =
      ((segs.map (fun s => s.1)).flatten).length := by
  induction segs with
  | nil => rfl
  | cons a rest ih =>
      simp only [List.map_cons, List.flatten_cons, List.length_append]
      rw [h a (List.mem_cons_self a rest),
        ih (fun s hs => h s (List.mem_cons_of_mem a hs))]

theorem flatten_mask_length (segs : List (Chunk × List Nat × List ℚ))
    (h : ∀ s ∈ segs, s.2.2.length = s.1.length) :
    ((segs.map (fun s => s.2.2)).flatten).length =
      ((segs.map (fun s => s.1)).flatten).length := by
  induction segs with
  | nil => rfl
  | cons a rest ih =>
      simp only [List.map_cons, List.flatten_cons, List.length_append]
      rw [h a (List.mem_cons_self a rest),
        ih (fun s hs => h s (List.mem_cons_of_mem a hs))]

/-- C5: Each segment's masked cross-entropy is normalized by the one
whole-sequence mask sum `tms` (`total_mask_sum`), not by any per-segment
count, and consequently for every partition of the sequence into segments
(per-segment logits, targets and mask of matching per-segment lengths) the
per-segment losses sum exactly to the full-sequence masked cross-entropy
normalized by that same whole-sequence count. -/
theorem C5_loss_normalization (m : StackModel) (tms : ℚ)
    (segs : List (Chunk × List Nat × List ℚ))
    (h : ∀ s ∈ segs, s.2.1.length = s.1.length ∧
      s.2.2.length = s.1.length) :
    (segs.map (fun s => segLossOf m tms s.1 s.2.1 s.2.2)).sum =
      segLossOf m tms ((segs.map (fun s => s.1)).flatten)
        ((segs.map (fun s => s.2.1)).flatten)
        ((segs.map (fun s => s.2.2)).flatten) := by
  induction segs with
  | nil =>
      show (0 : ℚ) = segLossOf m tms [] [] []
      rw [segLossOf]
      show (0 : ℚ) = ([] : List ℚ).sum / tms
      rw [List.sum_nil, zero_div]
  | cons a rest ih =>
      obtain ⟨hat, ham⟩ := h a (List.mem_cons_self a rest)
      have hrest := fun s hs => h s (List.mem_cons_of_mem a hs)
      simp only [List.map_cons, List.flatten_cons, List.sum_cons]
      rw [segLossOf_append m tms a.1 ((rest.map (fun s => s.1)).flatten)
          a.2.1 ((rest.map (fun s => s.2.1)).flatten)
          a.2.2 ((rest.map (fun s => s.2.2)).flatten) hat ham
          (flatten_targets_length rest (fun s hs => (hrest s hs).1))
          (flatten_mask_length rest (fun s hs => (hrest s hs).2)),
        ih hrest]

/-- Witness for C5: a three-position sequence split into segments of
lengths two and one. -/
theorem C5_loss_normalization_witness :
    ([([[1], [2]], [1, 2], [1, 0]), ([[3]], [0], [1])].map
        (fun s => segLossOf tinyModel 3 s.1 s.2.1 s.2.2)).sum =
      segLossOf tinyModel 3
        (([([[1], [2]], [1, 2], [1, 0]), ([[3]], [0], [1])].map
          (fun s => s.1)).flatten)
        (([([[1], [2]], [1, 2], [1, 0]), ([[3]], [0], [1])].map
          (fun s => s.2.1)).flatten)
        (([([[1], [2]], [1, 2], [1, 0]), ([[3]], [0], [1])].map
          (fun s => s.2.2)).flatten) := by
  refine C5_loss_normalization tinyModel 3
    [([[1], [2]], [1, 2], [1, 0]), ([[3]], [0], [1])] ?_
  intro s hs
  rcases List.mem_cons.mp hs with rfl | hs
  · exact ⟨rfl, rfl⟩
  rcases List.mem_cons.mp hs with rfl | hs
  · exact ⟨rfl, rfl⟩
  cases hs

end RWKV
